import Mathlib

/-!
Verification of the cost-assignment engine of `src/solver.py`
(`CostAssignmentSolver.resolver_completa` and its helper search routines).

The Python code works on floats; the embedding uses exact rationals (ℚ).
Python raises exceptions on some degenerate numeric inputs (division by
zero, `int(inf)` overflow, `max([])`); every such raising site is embedded
as an `Except.error ()` outcome, so `resolverCompleta` returns
`Except Unit (List Asignacion)` where `.error ()` models an exception
propagating out of `solve()`.

Notes kept from the source while embedding:
  * `objetivo_maximo`, `objetivo_promedio`, `factor_escala` (solver.py
    lines 59-63) and `num_costos_estimado` (line 85) are computed but never
    used; the embedding keeps only their side effect (line 85 raises
    `ZeroDivisionError` / `OverflowError` exactly when `costo_promedio == 0`).
  * Python's `list.remove` drops the first occurrence of a value; this is
    `List.erase`.
  * Python's `sorted` / `list.sort` are stable; `ordenarEstable` below is a
    stable-by-key insertion sort.
  * `set` iteration order in the finalization step (solver.py lines
    297-309) is unspecified in Python; terminal assignments are emitted in
    input-target order here.  No claim depends on that order.
-/

set_option maxHeartbeats 4000000
set_option maxRecDepth 4000

/-- All subsets of size `n` of a list, in the enumeration order of Python's
`itertools.combinations` (elements keep list order; subsets containing an
earlier element come first). -/
def combinaciones {α : Type} : ℕ → List α → List (List α)
  | 0, _ => [[]]
  | _ + 1, [] => []
  | n + 1, x :: xs => (combinaciones n xs).map (x :: ·) ++ combinaciones (n + 1) xs

/-- Insert `x` into a list sorted ascending by `clave`, after all entries
with key `≤ clave x` (so the overall sort is stable, like Python's). -/
def insercionEstable {α : Type} (clave : α → ℚ) (x : α) : List α → List α
  | [] => [x]
  | y :: l => if clave y ≤ clave x then y :: insercionEstable clave x l else x :: y :: l

/-- Stable sort ascending by `clave`: the embedding of Python's
`sorted(l, key=clave)`. -/
def ordenarEstable {α : Type} (clave : α → ℚ) (l : List α) : List α :=
  l.foldl (fun acc x => insercionEstable clave x acc) []

/-- Embedding of Python's `sorted(l, reverse=True)` on rationals. -/
def ordenarDesc (l : List ℚ) : List ℚ :=
  ordenarEstable (fun x => -x) l

/-- Embedding of Python's `min(l, key=clave)` on a nonempty list
(`c` is the head): the first element attaining the minimal key wins. -/
def minPorClave {α : Type} (clave : α → ℚ) (c : α) (l : List α) : α :=
  l.foldl (fun mejor x => if clave x < clave mejor then x else mejor) c

/-- Remove from `pool` one occurrence of each element of `sel` in turn:
the embedding of the Python loop `for c in sel: pool.remove(c)`. -/
def removerCada {α : Type} [BEq α] (pool sel : List α) : List α :=
  sel.foldl List.erase pool

/-- `r` beats the running best `menor` (`none` plays the role of
Python's initial `float('inf')` / `-inf` sentinels). -/
def ltOpcional (r : ℚ) : Option ℚ → Bool
  | none => true
  | some m => decide (r < m)

/-- The output record of the solver: the `Asignacion` dataclass of
solver.py lines 9-19. -/
structure Asignacion where
  objetivo : String
  valorObjetivo : ℚ
  costos : List ℚ
  suma : ℚ
  diferencia : ℚ
  precision : ℚ
  esGrupo : Bool := false
  objetivosAgrupados : Option (List (String × ℚ)) := none
  deriving Repr, DecidableEq

/-- The `mejor_grupo` dictionary built by `_encontrar_mejor_grupo`. -/
structure MejorGrupo where
  objetivos : List (String × ℚ)
  costos : List ℚ
  suma : ℚ
  deriving Repr, DecidableEq

/-- Inner loop of `_buscar_coincidencia_exacta`: first combination (in
enumeration order) whose sum is within `tolerancia` of `objetivo`. -/
def buscarEnCombos (objetivo tolerancia : ℚ) : List (List ℚ) → Option (List ℚ × ℚ)
  | [] => none
  | c :: resto =>
    if |c.sum - objetivo| ≤ tolerancia then some (c, c.sum) else buscarEnCombos objetivo tolerancia resto

/-- Outer loop of `_buscar_coincidencia_exacta` over subset sizes. -/
def buscarPorTamanos (costos : List ℚ) (objetivo tolerancia : ℚ) : List ℕ → Option (List ℚ × ℚ)
  | [] => none
  | n :: ns =>
    match buscarEnCombos objetivo tolerancia (combinaciones n costos) with
    | some r => some r
    | none => buscarPorTamanos costos objetivo tolerancia ns

/-- `_buscar_coincidencia_exacta(costos, objetivo, max_elementos, tolerancia)`
(solver.py lines 420-427): subset sizes `1 .. min(max_elementos, len(costos))`
ascending, combinations in pool order, first subset within tolerance wins. -/
def buscarCoincidenciaExacta (costos : List ℚ) (objetivo : ℚ) (maxElementos : ℕ)
    (tolerancia : ℚ) : Option (List ℚ × ℚ) :=
  buscarPorTamanos costos objetivo tolerancia (List.range' 1 (min maxElementos costos.length))

/-- `_optimizar_asignacion_extrema` (solver.py lines 318-339): best single
swap between the first 10 current costs and first 20 available costs that
strictly reduces the absolute difference. -/
def optimizarAsignacionExtrema (costosActuales costosDisponibles : List ℚ) (objetivo : ℚ) :
    Option (List ℚ × ℚ) :=
  let sumaActual := costosActuales.sum
  ((costosActuales.take 10).enum.flatMap
      (fun p => (costosDisponibles.take 20).map (fun cd => (p, cd)))).foldl
    (fun st par =>
      let nuevaSuma := sumaActual - par.1.2 + par.2
      let nuevaDif := |nuevaSuma - objetivo|
      if nuevaDif < st.1 then (nuevaDif, some (costosActuales.set par.1.1 par.2, nuevaSuma))
      else st)
    (|sumaActual - objetivo|, (none : Option (List ℚ × ℚ)))
  |>.2

/-- Greedy accumulation of phase 0 (solver.py lines 88-110): walk the
descending-sorted pool, take a cost while the running sum stays below
`valor * 1.1`, and once within 10% relative error try the swap optimisation
and stop.  `pool` is the snapshot of `costos_disponibles` used for the
swap-candidate filter.  The division by `valor` at line 100 is the error
case. -/
def fase0Voraz (valor : ℚ) (pool : List ℚ) :
    List ℚ → List ℚ → ℚ → Except Unit (List ℚ × ℚ)
  | [], asignados, suma => .ok (asignados, suma)
  | c :: resto, asignados, suma =>
    if suma + c ≤ valor * 1.1 then
      let asignados' := asignados ++ [c]
      let suma' := suma + c
      if valor = 0 then .error ()
      else if |suma' - valor| / valor < 0.1 then
        match optimizarAsignacionExtrema asignados'
            (pool.filter (fun x => !(asignados'.contains x))) valor with
        | some (cs, s) => .ok (cs, s)
        | none => .ok (asignados', suma')
      else fase0Voraz valor pool resto asignados' suma'
    else fase0Voraz valor pool resto asignados suma

/-- Phase 0 (solver.py lines 78-125): extreme targets.  The unused
`num_costos_estimado = int(valor / costo_promedio)` at line 85 raises
exactly when `costo_promedio = 0` (`ZeroDivisionError` on an empty pool,
`OverflowError` via `int(inf)` otherwise). -/
def fase0 (costoPromedio : ℚ) :
    List (String × ℚ) → List ℚ → List Asignacion → Except Unit (List ℚ × List Asignacion)
  | [], pool, asigs => .ok (pool, asigs)
  | (nombre, valor) :: resto, pool, asigs =>
    if costoPromedio = 0 then .error ()
    else
      match fase0Voraz valor pool (ordenarDesc pool) [] 0 with
      | .error e => .error e
      | .ok (costosAsignados, sumaActual) =>
        if costosAsignados = [] then fase0 costoPromedio resto pool asigs
        else if valor = 0 then .error ()
        else
          let dif := |sumaActual - valor|
          fase0 costoPromedio resto (removerCada pool costosAsignados)
            (asigs ++ [{ objetivo := nombre, valorObjetivo := valor,
                         costos := costosAsignados, suma := sumaActual, diferencia := dif,
                         precision := 100 - dif / valor * 100 }])

/-- Inner loop of `_encontrar_mejor_grupo` (solver.py lines 396-416) over
the flattened enumeration of (group, max_costs) pairs.  The division
`diferencia / suma_grupo` at line 415 happens only after an update and is
the error case when `suma_grupo = 0`. -/
def grupoGo (pool : List ℚ) :
    List (List (String × ℚ) × ℕ) → Option MejorGrupo → Option ℚ → Except Unit (Option MejorGrupo)
  | [], mejor, _ => .ok mejor
  | (grupo, maxCostos) :: resto, mejor, menor =>
    let sumaGrupo := (grupo.map Prod.snd).sum
    match buscarCoincidenciaExacta pool sumaGrupo maxCostos (sumaGrupo * 0.15) with
    | none => grupoGo pool resto mejor menor
    | some (cs, s) =>
      let dif := |s - sumaGrupo|
      if ltOpcional dif menor then
        let mejor' := some (⟨grupo, cs, s⟩ : MejorGrupo)
        if sumaGrupo = 0 then .error ()
        else if dif / sumaGrupo < 0.05 then .ok mejor'
        else grupoGo pool resto mejor' (some dif)
      else grupoGo pool resto mejor menor

/-- `_encontrar_mejor_grupo` (solver.py lines 388-418): group sizes
`2 .. min(5, len)`, combinations in list order, cost-subset search with
`max_costos ∈ {1, 2}` and tolerance `suma_grupo * 0.15`; best absolute
difference wins, short-circuit below 5% relative error. -/
def encontrarMejorGrupo (objetivosPequenos : List (String × ℚ)) (costosDisponibles : List ℚ) :
    Except Unit (Option MejorGrupo) :=
  grupoGo costosDisponibles
    ((List.range' 2 (min 5 objetivosPequenos.length - 1)).flatMap
      (fun t => (combinaciones t objetivosPequenos).flatMap (fun g => [(g, 1), (g, 2)])))
    none none

/-- Phase 1 (solver.py lines 127-169): repeatedly form the best group of
very-small targets while both targets and costs remain; when no group can
be formed the remaining very-small targets are appended to the normal
list.  If the pool empties first, the remaining very-small targets are
dropped (they resurface as terminal assignments in the finalization).
The `while` loop is driven by fuel; every iteration removes at least two
targets, so fuel `= length of the list` suffices. -/
def fase1 : ℕ → List (String × ℚ) → List (String × ℚ) → List ℚ → List Asignacion →
    Except Unit (List (String × ℚ) × List ℚ × List Asignacion)
  | 0, _, normales, pool, asigs => .ok (normales, pool, asigs)
  | combustible + 1, muyPequenos, normales, pool, asigs =>
    if muyPequenos = [] ∨ pool = [] then .ok (normales, pool, asigs)
    else
      match encontrarMejorGrupo muyPequenos pool with
      | .error e => .error e
      | .ok none => .ok (normales ++ muyPequenos, pool, asigs)
      | .ok (some g) =>
        let nombres := g.objetivos.map Prod.fst
        let valores := g.objetivos.map Prod.snd
        let sumaObjetivos := valores.sum
        if sumaObjetivos = 0 then .error ()
        else
          let dif := |g.suma - sumaObjetivos|
          fase1 combustible (removerCada muyPequenos g.objetivos) normales
            (removerCada pool g.costos)
            (asigs ++ [{ objetivo := String.intercalate " + " nombres,
                         valorObjetivo := sumaObjetivos, costos := g.costos, suma := g.suma,
                         diferencia := dif, precision := 100 - dif / sumaObjetivos * 100,
                         esGrupo := true, objetivosAgrupados := some (nombres.zip valores) }])

/-- One pass of phase 2 (solver.py lines 178-200) at a fixed
`max_elementos`: walk the pending targets in order, committing a direct
assignment on an exact match (the matched target is removed, its costs
erased from the pool) and keeping the target otherwise. -/
def fase2Pass (maxElementos : ℕ) :
    List (String × ℚ) → List ℚ → List Asignacion →
    Except Unit (List (String × ℚ) × List ℚ × List Asignacion)
  | [], pool, asigs => .ok ([], pool, asigs)
  | (n, v) :: resto, pool, asigs =>
    match buscarCoincidenciaExacta pool v maxElementos 0.001 with
    | some (cs, s) =>
      if v = 0 then .error ()
      else
        let dif := |s - v|
        fase2Pass maxElementos resto (removerCada pool cs)
          (asigs ++ [{ objetivo := n, valorObjetivo := v, costos := cs, suma := s,
                       diferencia := dif, precision := 100 - dif / v * 100 }])
    | none =>
      match fase2Pass maxElementos resto pool asigs with
      | .error e => .error e
      | .ok (resto', pool', asigs') => .ok ((n, v) :: resto', pool', asigs')

/-- Phase 2: the three nested passes `max_elementos ∈ [1, 2, 3]`. -/
def fase2 (pend : List (String × ℚ)) (pool : List ℚ) (asigs : List Asignacion) :
    Except Unit (List (String × ℚ) × List ℚ × List Asignacion) :=
  match fase2Pass 1 pend pool asigs with
  | .error e => .error e
  | .ok (p1, c1, a1) =>
    match fase2Pass 2 p1 c1 a1 with
    | .error e => .error e
    | .ok (p2, c2, a2) => fase2Pass 3 p2 c2 a2

/-- Classification of solver.py lines 70-76: extreme
(`v > costo_maximo * 10`), very small (`v < costo_minimo * 0.7`), normal. -/
def clasificarObjetivos (costoMaximo costoMinimo : ℚ) :
    List (String × ℚ) → List (String × ℚ) × List (String × ℚ) × List (String × ℚ)
  | [] => ([], [], [])
  | (n, v) :: resto =>
    let (e, p, nor) := clasificarObjetivos costoMaximo costoMinimo resto
    if v > costoMaximo * 10 then ((n, v) :: e, p, nor)
    else if v < costoMinimo * 0.7 then (e, (n, v) :: p, nor)
    else (e, p, (n, v) :: nor)

/-- Greedy branch of `_buscar_mejor_combinacion_adaptativa` (solver.py
lines 348-363), for `objetivo > 0.3 * sum(pool)`: descending walk capped
at `objetivo * 1.2`, early success below 5% relative error, otherwise the
accumulated selection (if any) is the fallback result. -/
def adaptativaVoraz (objetivo : ℚ) :
    List ℚ → List ℚ → ℚ → Except Unit (Option (List ℚ × ℚ))
  | [], sel, suma =>
    if sel = [] then .ok none
    else if objetivo = 0 then .error ()
    else .ok (some (sel, suma))
  | c :: resto, sel, suma =>
    if suma + c ≤ objetivo * 1.2 then
      let sel' := sel ++ [c]
      let suma' := suma + c
      if objetivo = 0 then .error ()
      else if |suma' - objetivo| / objetivo < 0.05 then .ok (some (sel', suma'))
      else adaptativaVoraz objetivo resto sel' suma'
    else adaptativaVoraz objetivo resto sel suma

/-- Combinatorial branch of `_buscar_mejor_combinacion_adaptativa`
(solver.py lines 371-384) over the flattened size-ascending enumeration:
track the best relative error, stop early below the adaptive tolerance
(`0.05` if `objetivo > 50` else `0.15`). -/
def adaptativaCombGo (objetivo : ℚ) :
    List (List ℚ) → Option (List ℚ × ℚ) → Option ℚ → Except Unit (Option (List ℚ × ℚ))
  | [], mejor, _ => .ok mejor
  | combo :: resto, mejor, menor =>
    let suma := combo.sum
    let dif := |suma - objetivo|
    if objetivo = 0 then .error ()
    else
      let rel := dif / objetivo
      if ltOpcional rel menor then
        let mejor' := some (combo, suma)
        if rel < (if objetivo > 50 then (0.05 : ℚ) else 0.15) then .ok mejor'
        else adaptativaCombGo objetivo resto mejor' (some rel)
      else adaptativaCombGo objetivo resto mejor menor

/-- `_buscar_mejor_combinacion_adaptativa` (solver.py lines 341-386).
`max(costos)` at line 368 raises on an empty pool (the error case). -/
def buscarMejorCombinacionAdaptativa (costos : List ℚ) (objetivo : ℚ) (maxElementos : ℕ) :
    Except Unit (Option (List ℚ × ℚ)) :=
  if objetivo > costos.sum * 0.3 then
    adaptativaVoraz objetivo (ordenarDesc costos) [] 0
  else
    match costos.max? with
    | none => .error ()
    | some costoMax =>
      let costosUtiles :=
        if objetivo > costoMax * 5 then costos
        else costos.filter (fun c => decide (c ≤ objetivo * 2.0))
      let costosOrdenados :=
        (ordenarEstable (fun x => |x - objetivo|) costosUtiles).take
          (min 20 costosUtiles.length)
      adaptativaCombGo objetivo
        ((List.range' 1 (min maxElementos costosOrdenados.length)).flatMap
          (fun n => combinaciones n costosOrdenados))
        none none

/-- Inner enumeration of `_buscar_mejor_combinacion_agresiva` (solver.py
lines 437-451).  The double `break` (inner on an update with relative
error `< 0.15`, outer right after) collapses to stopping at the first such
update of the flattened enumeration. -/
def agresivaGo (objetivo : ℚ) :
    List (List ℚ) → Option (List ℚ × ℚ) → Option ℚ → Except Unit (Option (List ℚ × ℚ))
  | [], mejor, _ => .ok mejor
  | combo :: resto, mejor, menor =>
    let suma := combo.sum
    let dif := |suma - objetivo|
    if objetivo = 0 then .error ()
    else
      let rel := dif / objetivo
      if ltOpcional rel menor ∧ suma ≤ objetivo * 1.8 then
        let mejor' := some (combo, suma)
        if rel < 0.15 then .ok mejor'
        else agresivaGo objetivo resto mejor' (some rel)
      else agresivaGo objetivo resto mejor menor

/-- `_buscar_mejor_combinacion_agresiva` (solver.py lines 429-453):
filter to costs `≤ objetivo * 2`, keep the 20 closest, subset sizes
`1 .. min(6, len)` (Python's `range(1, min(7, len + 1))`). -/
def buscarMejorCombinacionAgresiva (costos : List ℚ) (objetivo : ℚ) :
    Except Unit (Option (List ℚ × ℚ)) :=
  let costosUtiles := costos.filter (fun c => decide (c ≤ objetivo * 2.0))
  let costosOrdenados := (ordenarEstable (fun x => |x - objetivo|) costosUtiles).take 20
  agresivaGo objetivo
    ((List.range' 1 (min 6 costosOrdenados.length)).flatMap
      (fun n => combinaciones n costosOrdenados))
    none none

/-- Large-target loop of phase 3 (solver.py lines 214-241).  The
`int(valor / costo_promedio_actual * 1.5)` at line 220 raises
(`OverflowError` via `int(inf)`) when the current mean is zero. -/
def fase3Grandes (costoPromedioActual : ℚ) :
    List (String × ℚ) → List ℚ → List Asignacion → Except Unit (List ℚ × List Asignacion)
  | [], pool, asigs => .ok (pool, asigs)
  | (n, v) :: resto, pool, asigs =>
    if pool = [] then fase3Grandes costoPromedioActual resto pool asigs
    else if costoPromedioActual = 0 then .error ()
    else
      let maxElementosAdaptativo :=
        min pool.length (max 7 (⌊v / costoPromedioActual * 1.5⌋).toNat)
      match buscarMejorCombinacionAdaptativa pool v maxElementosAdaptativo with
      | .error e => .error e
      | .ok none => fase3Grandes costoPromedioActual resto pool asigs
      | .ok (some (cs, s)) =>
        if v = 0 then .error ()
        else
          let dif := |s - v|
          fase3Grandes costoPromedioActual resto (removerCada pool cs)
            (asigs ++ [{ objetivo := n, valorObjetivo := v, costos := cs, suma := s,
                         diferencia := dif, precision := 100 - dif / v * 100 }])

/-- One medium target of phase 3 (solver.py lines 246-261): only searched
when at least two costs remain. -/
def pasoMediano (pool : List ℚ) (asigs : List Asignacion) (t : String × ℚ) :
    Except Unit (List ℚ × List Asignacion) :=
  if 2 ≤ pool.length then
    match buscarMejorCombinacionAgresiva pool t.2 with
    | .error e => .error e
    | .ok none => .ok (pool, asigs)
    | .ok (some (cs, s)) =>
      if t.2 = 0 then .error ()
      else
        let dif := |s - t.2|
        .ok (removerCada pool cs,
          asigs ++ [{ objetivo := t.1, valorObjetivo := t.2, costos := cs, suma := s,
                      diferencia := dif, precision := 100 - dif / t.2 * 100 }])
  else .ok (pool, asigs)

/-- Medium-target loop of phase 3. -/
def fase3Medianos : List (String × ℚ) → List ℚ → List Asignacion →
    Except Unit (List ℚ × List Asignacion)
  | [], pool, asigs => .ok (pool, asigs)
  | t :: resto, pool, asigs =>
    match pasoMediano pool asigs t with
    | .error e => .error e
    | .ok (pool', asigs') => fase3Medianos resto pool' asigs'

/-- One small target of phase 3 (solver.py lines 266-278): take the single
pool cost nearest to the target value (first minimum wins), with the
clamped precision formula. -/
def pasoPequeno (pool : List ℚ) (asigs : List Asignacion) (t : String × ℚ) :
    Except Unit (List ℚ × List Asignacion) :=
  match pool with
  | [] => .ok (pool, asigs)
  | c :: resto =>
    let mejorCosto := minPorClave (fun x => |x - t.2|) c resto
    if t.2 = 0 then .error ()
    else
      .ok (pool.erase mejorCosto,
        asigs ++ [{ objetivo := t.1, valorObjetivo := t.2, costos := [mejorCosto],
                    suma := mejorCosto, diferencia := |mejorCosto - t.2|,
                    precision := max 0 (100 - |mejorCosto - t.2| / t.2 * 100) }])

/-- Small-target loop of phase 3. -/
def fase3Pequenos : List (String × ℚ) → List ℚ → List Asignacion →
    Except Unit (List ℚ × List Asignacion)
  | [], pool, asigs => .ok (pool, asigs)
  | t :: resto, pool, asigs =>
    match pasoPequeno pool asigs t with
    | .error e => .error e
    | .ok (pool', asigs') => fase3Pequenos resto pool' asigs'

/-- Scan of `_distribuir_forzadamente`'s inner loop (solver.py lines
463-474) over the precision-sorted iteration order `orden` (a list of
indices into `cur`): keep the first assignment maximising
`mejora + bonus` (strict `>` against an initial `-inf`). -/
def mejorIndicePara (cur : List Asignacion) (costo : ℚ) :
    List ℕ → Option (ℕ × ℚ) → Option (ℕ × ℚ)
  | [], mejor => mejor
  | i :: resto, mejor =>
    match cur.get? i with
    | none => mejorIndicePara cur costo resto mejor
    | some a =>
      let nuevaSuma := a.suma + costo
      let nuevaDif := |nuevaSuma - a.valorObjetivo|
      let mejora := a.diferencia - nuevaDif
      let bonus := (100 - a.precision) * 0.01
      let total := mejora + bonus
      let tomar := match mejor with
        | none => true
        | some (_, m) => decide (total > m)
      if tomar then mejorIndicePara cur costo resto (some (i, total))
      else mejorIndicePara cur costo resto mejor

/-- Outer loop of `_distribuir_forzadamente` (solver.py lines 459-480):
append each leftover cost to the chosen assignment and recompute its sum,
difference and clamped precision in place.  The division by
`valor_objetivo` at line 480 is the error case. -/
def distribuirGo (orden : List ℕ) : List ℚ → List Asignacion → Except Unit (List Asignacion)
  | [], cur => .ok cur
  | costo :: resto, cur =>
    match mejorIndicePara cur costo orden none with
    | none => distribuirGo orden resto cur
    | some (i, _) =>
      match cur.get? i with
      | none => distribuirGo orden resto cur
      | some a =>
        if a.valorObjetivo = 0 then .error ()
        else
          let suma' := a.suma + costo
          let dif' := |suma' - a.valorObjetivo|
          distribuirGo orden resto
            (cur.set i { a with costos := a.costos ++ [costo], suma := suma',
                                diferencia := dif',
                                precision := max 0 (100 - dif' / a.valorObjetivo * 100) })

/-- `_distribuir_forzadamente` (solver.py lines 455-480).  Python sorts a
list of references by precision once and mutates the shared objects; here
the sorted iteration order is the stable precision-ascending permutation
of indices, and updates go through `List.set`. -/
def distribuirForzadamente (asigs : List Asignacion) (costosRestantes : List ℚ) :
    Except Unit (List Asignacion) :=
  distribuirGo ((ordenarEstable (fun p => p.2.precision) asigs.enum).map Prod.fst)
    costosRestantes asigs

/-- The target names accounted to one assignment by the finalization scan
(solver.py lines 290-295, including the Python truthiness test
`asig.es_grupo and asig.objetivos_agrupados`). -/
def nombresDe (a : Asignacion) : List String :=
  if a.esGrupo = true ∧ a.objetivosAgrupados.getD [] ≠ [] then
    (a.objetivosAgrupados.getD []).map Prod.fst
  else [a.objetivo]

/-- Names covered by the committed assignments (solver.py lines 289-295). -/
def nombresCubiertos (asigs : List Asignacion) : List String :=
  asigs.flatMap nombresDe

/-- Finalization (solver.py lines 288-309): a terminal zero-cost
assignment for every original target name not yet covered.  (Python
iterates a set difference, whose order is unspecified; input order is
used here.) -/
def finalizar (objetivosOriginales : List (String × ℚ)) (asigs : List Asignacion) :
    List Asignacion :=
  asigs ++ (objetivosOriginales.filter
      (fun p => decide (p.1 ∉ nombresCubiertos asigs))).map
    (fun p => { objetivo := p.1, valorObjetivo := p.2, costos := [], suma := 0,
                diferencia := p.2, precision := 0 })

/-- `resolver_completa` (solver.py lines 44-316): the full phase pipeline
on an input cost list and an input target association list (Python dicts
preserve insertion order). -/
def resolverCompleta (costos : List ℚ) (objetivos : List (String × ℚ)) :
    Except Unit (List Asignacion) :=
  let costoMinimo := (costos.min?).getD 0
  let costoMaximo := (costos.max?).getD 0
  let costoPromedio : ℚ := if costos.length = 0 then 0 else costos.sum / costos.length
  let (extremos, muyPequenos, normales) := clasificarObjetivos costoMaximo costoMinimo objetivos
  match fase0 costoPromedio extremos costos [] with
  | .error e => .error e
  | .ok (pool1, asigs1) =>
    let ordenados := ordenarEstable (fun p => p.2) muyPequenos
    match fase1 ordenados.length ordenados normales pool1 asigs1 with
    | .error e => .error e
    | .ok (normales2, pool2, asigs2) =>
      match fase2 normales2 pool2 asigs2 with
      | .error e => .error e
      | .ok (pend3, pool3, asigs3) =>
        let costoPromedioActual : ℚ :=
          if pool3.length = 0 then costoPromedio else pool3.sum / pool3.length
        let grandes := pend3.filter (fun p => decide (p.2 > costoPromedioActual * 2))
        let medianos := pend3.filter
          (fun p => decide (costoMinimo ≤ p.2 ∧ p.2 ≤ costoPromedioActual * 2))
        let pequenos := pend3.filter (fun p => decide (p.2 < costoMinimo))
        match fase3Grandes costoPromedioActual
            (ordenarEstable (fun p => -p.2) grandes) pool3 asigs3 with
        | .error e => .error e
        | .ok (pool4, asigs4) =>
          match fase3Medianos medianos pool4 asigs4 with
          | .error e => .error e
          | .ok (pool5, asigs5) =>
            match fase3Pequenos pequenos pool5 asigs5 with
            | .error e => .error e
            | .ok (pool6, asigs6) =>
              match if pool6 = [] then .ok asigs6 else distribuirForzadamente asigs6 pool6 with
              | .error e => .error e
              | .ok asigs7 => .ok (finalizar objetivos asigs7)

/-! ### Notions used to state the claims -/

/-- Multiset of all cost instances assigned across a list of assignments. -/
def asigCostos (asigs : List Asignacion) : Multiset ℚ :=
  (asigs.map (fun a => (a.costos : Multiset ℚ))).sum

/-- How many times `nombre` is accounted for in an output, in the sense of
the coverage claim: once for each non-group assignment whose name is
`nombre`, plus one for each occurrence of `nombre` among a group's
`grouped_targets`. -/
def cuentaNombre (nombre : String) (asigs : List Asignacion) : ℕ :=
  (asigs.map (fun a =>
    if a.esGrupo = true then ((a.objetivosAgrupados.getD []).map Prod.fst).count nombre
    else if a.objetivo = nombre then 1 else 0)).sum

/-- Well-formedness of an assignment record as produced by every phase:
the sum field is the sum of the assigned costs, the difference is the
absolute error, the precision is the (clamped or unclamped) percentage
formula over its own fields, groups carry a nonempty member list, and
zero-cost records are exactly the terminal ones. -/
def BuenaAsignacion (a : Asignacion) : Prop :=
  a.suma = a.costos.sum ∧
  a.diferencia = |a.suma - a.valorObjetivo| ∧
  (a.valorObjetivo ≠ 0 →
    (a.precision = 100 - a.diferencia / a.valorObjetivo * 100 ∨
     a.precision = max 0 (100 - a.diferencia / a.valorObjetivo * 100))) ∧
  (a.esGrupo = true → a.objetivosAgrupados.getD [] ≠ []) ∧
  (a.costos = [] → a.precision = 0 ∧ a.diferencia = a.valorObjetivo)

/-- Multiset of names covered by the committed assignments. -/
def cubiertos (asigs : List Asignacion) : Multiset String :=
  (nombresCubiertos asigs : Multiset String)

/-! ### Combinatorial enumeration lemmas -/

theorem combinaciones_sublist {α : Type} :
    ∀ (l : List α) (n : ℕ) (c : List α), c ∈ combinaciones n l → List.Sublist c l := by
  intro l
  induction l with
  | nil =>
    intro n c hc
    cases n with
    | zero => simp [combinaciones] at hc; simp [hc]
    | succ n => simp [combinaciones] at hc
  | cons x xs ih =>
    intro n c hc
    cases n with
    | zero => simp [combinaciones] at hc; simp [hc]
    | succ n =>
      simp only [combinaciones, List.mem_append, List.mem_map] at hc
      rcases hc with ⟨c', hc', rfl⟩ | hc
      · exact (ih n c' hc').cons₂ x
      · exact (ih (n + 1) c hc).cons x

theorem combinaciones_length {α : Type} :
    ∀ (l : List α) (n : ℕ) (c : List α), c ∈ combinaciones n l → c.length = n := by
  intro l
  induction l with
  | nil =>
    intro n c hc
    cases n with
    | zero => simp [combinaciones] at hc; simp [hc]
    | succ n => simp [combinaciones] at hc
  | cons x xs ih =>
    intro n c hc
    cases n with
    | zero => simp [combinaciones] at hc; simp [hc]
    | succ n =>
      simp only [combinaciones, List.mem_append, List.mem_map] at hc
      rcases hc with ⟨c', hc', rfl⟩ | hc
      · simp [ih n c' hc']
      · exact ih (n + 1) c hc

theorem combinaciones_ne_nil {α : Type} {l c : List α} {n : ℕ} (hn : 1 ≤ n)
    (hc : c ∈ combinaciones n l) : c ≠ [] := by
  intro h
  have := combinaciones_length l n c hc
  rw [h] at this
  simp at this
  omega

/-! ### Stable sort and selection lemmas -/

theorem insercionEstable_perm {α : Type} (clave : α → ℚ) (x : α) :
    ∀ l : List α, List.Perm (insercionEstable clave x l) (x :: l) := by
  intro l
  induction l with
  | nil => simp [insercionEstable]
  | cons y l ih =>
    simp only [insercionEstable]
    by_cases h : clave y ≤ clave x
    · rw [if_pos h]
      exact (ih.cons y).trans (List.Perm.swap x y l)
    · rw [if_neg h]

theorem ordenarEstable_perm_aux {α : Type} (clave : α → ℚ) :
    ∀ (l acc : List α),
      List.Perm (l.foldl (fun acc x => insercionEstable clave x acc) acc) (acc ++ l) := by
  intro l
  induction l with
  | nil => intro acc; simp
  | cons x l ih =>
    intro acc
    have h1 := ih (insercionEstable clave x acc)
    have h2 : List.Perm (insercionEstable clave x acc ++ l) ((x :: acc) ++ l) :=
      (insercionEstable_perm clave x acc).append_right l
    have h3 : List.Perm ((x :: acc) ++ l) (acc ++ x :: l) := by
      simpa using List.perm_middle.symm
    exact (h1.trans h2).trans h3

theorem ordenarEstable_perm {α : Type} (clave : α → ℚ) (l : List α) :
    List.Perm (ordenarEstable clave l) l := by
  simpa using ordenarEstable_perm_aux clave l []

theorem ordenarDesc_perm (l : List ℚ) : List.Perm (ordenarDesc l) l :=
  ordenarEstable_perm _ l

theorem minPorClave_mem {α : Type} (clave : α → ℚ) :
    ∀ (l : List α) (c : α), minPorClave clave c l ∈ c :: l := by
  intro l
  induction l with
  | nil => intro c; simp [minPorClave]
  | cons x l ih =>
    intro c
    have hstep : minPorClave clave c (x :: l) =
        minPorClave clave (if clave x < clave c then x else c) l := by
      simp [minPorClave]
    rw [hstep]
    have h := ih (if clave x < clave c then x else c)
    by_cases hx : clave x < clave c
    · rw [if_pos hx] at h
      rw [if_pos hx]
      rcases List.mem_cons.mp h with h1 | h1 <;> simp [h1]
    · rw [if_neg hx] at h
      rw [if_neg hx]
      rcases List.mem_cons.mp h with h1 | h1 <;> simp [h1]

/-! ### Erase and multiset bookkeeping lemmas -/

theorem erase_perm_de_mem {α : Type} [BEq α] [LawfulBEq α] {a : α} :
    ∀ {l : List α}, a ∈ l → List.Perm l (a :: l.erase a) := by
  intro l
  induction l with
  | nil => intro h; simp at h
  | cons b l ih =>
    intro h
    rw [List.erase_cons]
    by_cases hb : b = a
    · subst hb
      simp
    · have hba : (b == a) = false := by simp [hb]
      rw [hba]
      simp only [Bool.false_eq_true, if_false]
      have ha : a ∈ l := by
        rcases List.mem_cons.mp h with h1 | h1
        · exact absurd h1.symm hb
        · exact h1
      exact ((ih ha).cons b).trans (List.Perm.swap a b (l.erase a))

theorem erase_multiset_de_mem {α : Type} [BEq α] [LawfulBEq α] {a : α} {l : List α}
    (h : a ∈ l) : (l : Multiset α) = a ::ₘ (l.erase a : List α) :=
  Multiset.coe_eq_coe.mpr (erase_perm_de_mem h)

theorem removerCada_multiset {α : Type} [BEq α] [LawfulBEq α] :
    ∀ (sel pool : List α), (sel : Multiset α) ≤ (pool : Multiset α) →
      (removerCada pool sel : Multiset α) + (sel : Multiset α) = (pool : Multiset α) := by
  intro sel
  induction sel with
  | nil => intro pool _; simp [removerCada]
  | cons a sel ih =>
    intro pool h
    have hmem : a ∈ pool := by
      have : a ∈ (pool : Multiset α) :=
        Multiset.mem_of_le h (by simp [← Multiset.cons_coe])
      exact Multiset.mem_coe.mp this
    have hpool := erase_multiset_de_mem hmem
    have hsel : (sel : Multiset α) ≤ (pool.erase a : List α) := by
      have h' : (a ::ₘ (sel : Multiset α)) ≤ a ::ₘ ((pool.erase a : List α) : Multiset α) := by
        rw [Multiset.cons_coe, ← hpool]
        simpa [← Multiset.cons_coe] using h
      exact (Multiset.cons_le_cons_iff a).mp h'
    have hrc : removerCada pool (a :: sel) = removerCada (pool.erase a) sel := rfl
    rw [hrc, ← Multiset.cons_coe, Multiset.add_cons, ih (pool.erase a) hsel, hpool]

theorem sublist_multiset_le {α : Type} {l₁ l₂ : List α} (h : List.Sublist l₁ l₂) :
    (l₁ : Multiset α) ≤ (l₂ : Multiset α) :=
  Multiset.coe_le.mpr h.subperm

theorem perm_multiset_eq {α : Type} {l₁ l₂ : List α} (h : List.Perm l₁ l₂) :
    (l₁ : Multiset α) = (l₂ : Multiset α) :=
  Multiset.coe_eq_coe.mpr h

theorem mem_de_get? {α : Type} {l : List α} {i : ℕ} {a : α} (h : l.get? i = some a) :
    a ∈ l := by
  rw [List.get?_eq_getElem?] at h
  exact List.getElem?_mem h

theorem cons_add_singleton_comm {α : Type} (u v : α) (s : Multiset α) :
    u ::ₘ s + {v} = v ::ₘ s + {u} := by
  rw [← Multiset.cons_zero v, ← Multiset.cons_zero u, Multiset.add_cons, Multiset.add_cons,
    add_zero, add_zero, Multiset.cons_swap]

theorem set_multiset {α : Type} :
    ∀ (l : List α) (i : ℕ) (a b : α), l.get? i = some a →
      (l.set i b : Multiset α) + {a} = (l : Multiset α) + {b} := by
  intro l
  induction l with
  | nil => intro i a b h; simp at h
  | cons x t ih =>
    intro i a b h
    cases i with
    | zero =>
      have hxa : a = x := by simpa using h.symm
      subst hxa
      show ((b :: t : List α) : Multiset α) + {a} = ((a :: t : List α) : Multiset α) + {b}
      rw [← Multiset.cons_coe, ← Multiset.cons_coe]
      exact cons_add_singleton_comm b a (t : Multiset α)
    | succ i =>
      simp only [List.get?] at h
      show ((x :: t.set i b : List α) : Multiset α) + {a} = ((x :: t : List α) : Multiset α) + {b}
      simp only [← Multiset.cons_coe, Multiset.cons_add]
      rw [ih i a b h]

theorem set_sum :
    ∀ (l : List ℚ) (i : ℕ) (a b : ℚ), l.get? i = some a →
      (l.set i b).sum = l.sum - a + b := by
  intro l
  induction l with
  | nil => intro i a b h; simp at h
  | cons x t ih =>
    intro i a b h
    cases i with
    | zero =>
      simp only [List.get?] at h
      cases h
      simp [List.set]
      ring
    | succ i =>
      simp only [List.get?] at h
      simp only [List.set, List.sum_cons, ih i a b h]
      ring

theorem set_le_multiset {α : Type} [DecidableEq α] {cur pool : List α} {i : ℕ} {a b : α}
    (hle : (cur : Multiset α) ≤ pool) (hbp : b ∈ pool) (hbc : b ∉ cur)
    (hget : cur.get? i = some a) : (cur.set i b : Multiset α) ≤ pool := by
  have hab : a ≠ b := fun h => hbc (h ▸ mem_de_get? hget)
  have hkey := set_multiset cur i a b hget
  rw [Multiset.le_iff_count]
  intro x
  have hcount := congrArg (Multiset.count x) hkey
  simp only [Multiset.count_add, Multiset.count_singleton] at hcount
  have hx := Multiset.le_iff_count.mp hle x
  by_cases hxb : x = b
  · subst hxb
    have h0 : Multiset.count x (cur : Multiset α) = 0 := by
      rw [Multiset.count_eq_zero]
      simpa using hbc
    have h1 : 1 ≤ Multiset.count x (pool : Multiset α) :=
      Multiset.one_le_count_iff_mem.mpr (by simpa using hbp)
    rw [if_neg (fun hxa => hab (hxa.symm)), if_pos rfl] at hcount
    omega
  · by_cases hxa : x = a
    · rw [if_pos hxa, if_neg hxb] at hcount
      omega
    · rw [if_neg hxa, if_neg hxb] at hcount
      omega

theorem zip_map_fst_snd {α β : Type} :
    ∀ l : List (α × β), (l.map Prod.fst).zip (l.map Prod.snd) = l := by
  intro l
  induction l with
  | nil => rfl
  | cons x l ih => simpa using ih

theorem filtros_particion {α : Type} (p1 p2 p3 : α → Bool) :
    ∀ l : List α, (∀ x ∈ l, (p1 x).toNat + (p2 x).toNat + (p3 x).toNat = 1) →
      ((l.filter p1 : List α) : Multiset α) + ((l.filter p2 : List α) : Multiset α)
        + ((l.filter p3 : List α) : Multiset α) = (l : Multiset α) := by
  intro l
  induction l with
  | nil => intro _; simp
  | cons x l ih =>
    intro h
    have hx := h x (by simp)
    have hl : ∀ y ∈ l, (p1 y).toNat + (p2 y).toNat + (p3 y).toNat = 1 := by
      intro y hy
      exact h y (by simp [hy])
    have hrec := ih hl
    cases hp1 : p1 x <;> cases hp2 : p2 x <;> cases hp3 : p3 x <;>
      rw [hp1, hp2, hp3] at hx <;> simp at hx
    · have e1 : List.filter p1 (x :: l) = List.filter p1 l := by simp [List.filter_cons, hp1]
      have e2 : List.filter p2 (x :: l) = List.filter p2 l := by simp [List.filter_cons, hp2]
      have e3 : List.filter p3 (x :: l) = x :: List.filter p3 l := by
        simp [List.filter_cons, hp3]
      rw [e1, e2, e3, ← Multiset.cons_coe, ← Multiset.cons_coe, Multiset.add_cons, hrec]
    · have e1 : List.filter p1 (x :: l) = List.filter p1 l := by simp [List.filter_cons, hp1]
      have e2 : List.filter p2 (x :: l) = x :: List.filter p2 l := by
        simp [List.filter_cons, hp2]
      have e3 : List.filter p3 (x :: l) = List.filter p3 l := by simp [List.filter_cons, hp3]
      rw [e1, e2, e3, ← Multiset.cons_coe, ← Multiset.cons_coe, Multiset.add_cons,
        Multiset.cons_add, hrec]
    · have e1 : List.filter p1 (x :: l) = x :: List.filter p1 l := by
        simp [List.filter_cons, hp1]
      have e2 : List.filter p2 (x :: l) = List.filter p2 l := by simp [List.filter_cons, hp2]
      have e3 : List.filter p3 (x :: l) = List.filter p3 l := by simp [List.filter_cons, hp3]
      rw [e1, e2, e3, ← Multiset.cons_coe, ← Multiset.cons_coe, Multiset.cons_add,
        Multiset.cons_add, hrec]

theorem suma_ge_len_mul (b : ℚ) :
    ∀ l : List ℚ, (∀ x ∈ l, b ≤ x) → (l.length : ℚ) * b ≤ l.sum := by
  intro l
  induction l with
  | nil => intro _; simp
  | cons x l ih =>
    intro h
    have hx := h x (by simp)
    have hl := ih (fun y hy => h y (by simp [hy]))
    simp only [List.length_cons, List.sum_cons]
    push_cast
    linarith

theorem min_le_promedio {b : ℚ} {l : List ℚ} (hne : l ≠ []) (h : ∀ x ∈ l, b ≤ x) :
    b ≤ l.sum / l.length := by
  have hl0 : 0 < (l.length : ℚ) := by
    have := List.length_pos.mpr hne
    exact_mod_cast this
  rw [le_div_iff₀ hl0]
  have := suma_ge_len_mul b l h
  linarith

/-! ### Accessor lemmas for the claim-statement notions -/

theorem asigCostos_nil : asigCostos [] = 0 := rfl

theorem asigCostos_append (l₁ l₂ : List Asignacion) :
    asigCostos (l₁ ++ l₂) = asigCostos l₁ + asigCostos l₂ := by
  simp [asigCostos]

theorem asigCostos_singleton (a : Asignacion) : asigCostos [a] = (a.costos : Multiset ℚ) := by
  simp [asigCostos]

theorem cubiertos_nil : cubiertos [] = 0 := rfl

theorem cubiertos_append (l₁ l₂ : List Asignacion) :
    cubiertos (l₁ ++ l₂) = cubiertos l₁ + cubiertos l₂ := by
  simp [cubiertos, nombresCubiertos]

theorem cubiertos_singleton (a : Asignacion) :
    cubiertos [a] = (nombresDe a : Multiset String) := by
  simp [cubiertos, nombresCubiertos]

theorem cuentaNombre_eq_count (n : String) :
    ∀ asigs : List Asignacion,
      (∀ a ∈ asigs, a.esGrupo = true → a.objetivosAgrupados.getD [] ≠ []) →
      cuentaNombre n asigs = Multiset.count n (cubiertos asigs) := by
  intro asigs
  induction asigs with
  | nil => intro _; simp [cuentaNombre, cubiertos, nombresCubiertos]
  | cons a l ih =>
    intro h
    have hl := ih (fun x hx => h x (by simp [hx]))
    have hcons : cubiertos (a :: l) = (nombresDe a : Multiset String) + cubiertos l := by
      simp [cubiertos, nombresCubiertos]
    rw [hcons]
    simp only [cuentaNombre, List.map_cons, List.sum_cons, Multiset.count_add] at hl ⊢
    rw [← hl]
    congr 1
    by_cases hg : a.esGrupo = true
    · have hne := h a (by simp) hg
      rw [if_pos hg]
      have : nombresDe a = (a.objetivosAgrupados.getD []).map Prod.fst := by
        simp [nombresDe, hg, hne]
      rw [this, Multiset.coe_count]
    · have hg' : a.esGrupo = false := by
        cases hb : a.esGrupo
        · rfl
        · exact absurd hb hg
      rw [if_neg hg]
      have : nombresDe a = [a.objetivo] := by
        simp [nombresDe, hg']
      rw [this, Multiset.coe_count]
      by_cases ho : a.objetivo = n
      · simp [ho]
      · simp [List.count_cons, ho, fun h : n = a.objetivo => ho h.symm]

/-! ### Search routine specifications -/

theorem buscarEnCombos_spec {objetivo tolerancia : ℚ} :
    ∀ {combos : List (List ℚ)} {cs : List ℚ} {s : ℚ},
      buscarEnCombos objetivo tolerancia combos = some (cs, s) →
      cs ∈ combos ∧ s = cs.sum := by
  intro combos
  induction combos with
  | nil => intro cs s h; simp [buscarEnCombos] at h
  | cons c resto ih =>
    intro cs s h
    rw [buscarEnCombos] at h
    split at h
    · rcases h with ⟨⟩
      exact ⟨by simp, rfl⟩
    · obtain ⟨h1, h2⟩ := ih h
      exact ⟨by simp [h1], h2⟩

theorem buscarPorTamanos_spec {costos : List ℚ} {objetivo tolerancia : ℚ} :
    ∀ {ns : List ℕ} {cs : List ℚ} {s : ℚ},
      buscarPorTamanos costos objetivo tolerancia ns = some (cs, s) →
      ∃ n ∈ ns, cs ∈ combinaciones n costos ∧ s = cs.sum := by
  intro ns
  induction ns with
  | nil => intro cs s h; simp [buscarPorTamanos] at h
  | cons n ns ih =>
    intro cs s h
    rw [buscarPorTamanos] at h
    cases hb : buscarEnCombos objetivo tolerancia (combinaciones n costos) with
    | some r =>
      rw [hb] at h
      rcases h with ⟨⟩
      obtain ⟨h1, h2⟩ := buscarEnCombos_spec (by rw [hb])
      exact ⟨n, by simp, h1, h2⟩
    | none =>
      rw [hb] at h
      obtain ⟨m, hm, h1, h2⟩ := ih h
      exact ⟨m, by simp [hm], h1, h2⟩

theorem buscarCoincidenciaExacta_spec {costos : List ℚ} {objetivo : ℚ} {maxE : ℕ} {tol : ℚ}
    {cs : List ℚ} {s : ℚ} (h : buscarCoincidenciaExacta costos objetivo maxE tol = some (cs, s)) :
    List.Sublist cs costos ∧ s = cs.sum ∧ cs ≠ [] := by
  obtain ⟨n, hn, hc, hs⟩ := buscarPorTamanos_spec h
  have h1 : 1 ≤ n := by
    rw [List.mem_range'] at hn
    omega
  exact ⟨combinaciones_sublist _ _ _ hc, hs, combinaciones_ne_nil h1 hc⟩

theorem optimizar_fold (cur disp : List ℚ) (objetivo : ℚ) :
    ∀ (L : List ((ℕ × ℚ) × ℚ)) (st : ℚ × Option (List ℚ × ℚ)),
      (∀ p ∈ L, cur.get? p.1.1 = some p.1.2 ∧ p.2 ∈ disp) →
      (∀ cs s, st.2 = some (cs, s) → ∃ i a cd, cur.get? i = some a ∧ cd ∈ disp ∧
        cs = cur.set i cd ∧ s = cur.sum - a + cd) →
      ∀ cs s,
        (L.foldl (fun st par =>
          let nuevaSuma := cur.sum - par.1.2 + par.2
          let nuevaDif := |nuevaSuma - objetivo|
          if nuevaDif < st.1 then (nuevaDif, some (cur.set par.1.1 par.2, nuevaSuma)) else st)
          st).2 = some (cs, s) →
        ∃ i a cd, cur.get? i = some a ∧ cd ∈ disp ∧ cs = cur.set i cd ∧
          s = cur.sum - a + cd := by
  intro L
  induction L with
  | nil => intro st _ hst cs s h; exact hst cs s h
  | cons par L ih =>
    intro st hmem hst cs s h
    rw [List.foldl_cons] at h
    refine ih _ (fun p hp => hmem p (by simp [hp])) ?_ cs s h
    intro cs' s' hs'
    simp only at hs'
    split at hs'
    · rcases hs' with ⟨⟩
      obtain ⟨hg, hd⟩ := hmem par (by simp)
      exact ⟨par.1.1, par.1.2, par.2, hg, hd, rfl, rfl⟩
    · exact hst cs' s' hs'

theorem optimizar_spec {cur disp : List ℚ} {objetivo : ℚ} {cs : List ℚ} {s : ℚ}
    (h : optimizarAsignacionExtrema cur disp objetivo = some (cs, s)) :
    ∃ i a cd, cur.get? i = some a ∧ cd ∈ disp ∧ cs = cur.set i cd ∧
      s = cur.sum - a + cd := by
  have hmem : ∀ p ∈ (cur.take 10).enum.flatMap
      (fun p => (disp.take 20).map (fun cd => (p, cd))),
      cur.get? p.1.1 = some p.1.2 ∧ p.2 ∈ disp := by
    intro p hp
    rw [List.mem_flatMap] at hp
    obtain ⟨q, hq, hp⟩ := hp
    rw [List.mem_map] at hp
    obtain ⟨cd, hcd, rfl⟩ := hp
    have hget : (cur.take 10).get? q.1 = some q.2 := by
      have := List.mk_mem_enum_iff_getElem?.mp (by exact hq)
      rwa [List.get?_eq_getElem?]
    constructor
    · have hlt : q.1 < 10 := by
        by_contra hge
        have hlen : (cur.take 10).length ≤ q.1 := by
          have := List.length_take_le 10 cur
          omega
        rw [List.get?_eq_getElem?, List.getElem?_eq_none hlen] at hget
        exact Option.noConfusion hget
      rw [List.get?_eq_getElem?] at hget ⊢
      rwa [List.getElem?_take_of_lt hlt] at hget
    · exact List.mem_of_mem_take hcd
  refine optimizar_fold cur disp objetivo
    ((cur.take 10).enum.flatMap (fun p => (disp.take 20).map (fun cd => (p, cd))))
    (|cur.sum - objetivo|, none) hmem ?_ cs s h
  intro cs' s' h0
  exact Option.noConfusion h0

theorem fase0Voraz_spec {valor : ℚ} {pool : List ℚ} :
    ∀ {resto asignados : List ℚ} {suma : ℚ} {cs : List ℚ} {s : ℚ},
      ((asignados ++ resto : List ℚ) : Multiset ℚ) ≤ (pool : Multiset ℚ) →
      suma = asignados.sum →
      fase0Voraz valor pool resto asignados suma = .ok (cs, s) →
      s = cs.sum ∧ (cs : Multiset ℚ) ≤ (pool : Multiset ℚ) := by
  intro resto
  induction resto with
  | nil =>
    intro asignados suma cs s hle hsum h
    simp only [fase0Voraz] at h
    cases h
    refine ⟨hsum, le_trans ?_ hle⟩
    exact sublist_multiset_le (List.sublist_append_left _ _)
  | cons c resto ih =>
    intro asignados suma cs s hle hsum h
    have hcur_le : ((asignados ++ [c] : List ℚ) : Multiset ℚ) ≤ (pool : Multiset ℚ) := by
      refine le_trans (sublist_multiset_le ?_) hle
      exact List.Sublist.append_left ((List.nil_sublist resto).cons₂ c) asignados
    have hsum' : suma + c = (asignados ++ [c]).sum := by simp [hsum]
    simp only [fase0Voraz] at h
    split at h
    · split at h
      · exact absurd h (by simp)
      · split at h
        · cases hopt : optimizarAsignacionExtrema (asignados ++ [c])
              (pool.filter (fun x => !((asignados ++ [c]).contains x))) valor with
          | some r =>
            obtain ⟨cs', s'⟩ := r
            rw [hopt] at h
            cases h
            obtain ⟨i, a, cd, hget, hcd, hcs, hs⟩ := optimizar_spec hopt
            obtain ⟨hcdpool, hpred⟩ := List.mem_filter.mp hcd
            have hnotin : cd ∉ asignados ++ [c] := by
              intro hmem
              rw [Bool.not_eq_true'] at hpred
              have helem : (asignados ++ [c]).elem cd = true := List.elem_iff.mpr hmem
              rw [List.contains] at hpred
              rw [hpred] at helem
              exact Bool.noConfusion helem
            subst hcs
            constructor
            · rw [hs, set_sum _ _ _ _ hget]
            · exact set_le_multiset hcur_le hcdpool hnotin hget
          | none =>
            rw [hopt] at h
            cases h
            exact ⟨hsum', hcur_le⟩
        · refine ih ?_ hsum' h
          have heq : asignados ++ [c] ++ resto = asignados ++ c :: resto := by simp
          rw [heq]
          exact hle
    · refine ih ?_ hsum h
      refine le_trans (sublist_multiset_le ?_) hle
      exact List.Sublist.append_left (List.sublist_cons_self c resto) asignados

theorem fase0Voraz_top {valor : ℚ} {pool cs : List ℚ} {s : ℚ}
    (h : fase0Voraz valor pool (ordenarDesc pool) [] 0 = .ok (cs, s)) :
    s = cs.sum ∧ (cs : Multiset ℚ) ≤ (pool : Multiset ℚ) := by
  refine fase0Voraz_spec ?_ (by simp) h
  have := perm_multiset_eq (ordenarDesc_perm pool)
  simp only [List.nil_append]
  rw [this]

theorem adaptativaVoraz_spec {objetivo : ℚ} {pool : List ℚ} :
    ∀ {resto sel : List ℚ} {suma : ℚ} {res : Option (List ℚ × ℚ)},
      ((sel ++ resto : List ℚ) : Multiset ℚ) ≤ (pool : Multiset ℚ) →
      suma = sel.sum →
      adaptativaVoraz objetivo resto sel suma = .ok res →
      ∀ cs s, res = some (cs, s) →
        s = cs.sum ∧ (cs : Multiset ℚ) ≤ (pool : Multiset ℚ) ∧ cs ≠ [] := by
  intro resto
  induction resto with
  | nil =>
    intro sel suma res hle hsum h cs s hres
    simp only [adaptativaVoraz] at h
    split at h
    · cases h; simp at hres
    · split at h
      · exact absurd h (by simp)
      · cases h
        cases hres
        refine ⟨hsum, le_trans ?_ hle, by assumption⟩
        exact sublist_multiset_le (List.sublist_append_left _ _)
  | cons c resto ih =>
    intro sel suma res hle hsum h cs s hres
    have hcur_le : ((sel ++ [c] : List ℚ) : Multiset ℚ) ≤ (pool : Multiset ℚ) := by
      refine le_trans (sublist_multiset_le ?_) hle
      exact List.Sublist.append_left ((List.nil_sublist resto).cons₂ c) sel
    have hsum' : suma + c = (sel ++ [c]).sum := by simp [hsum]
    simp only [adaptativaVoraz] at h
    split at h
    · split at h
      · exact absurd h (by simp)
      · split at h
        · cases h
          cases hres
          exact ⟨hsum', hcur_le, by simp⟩
        · refine ih ?_ hsum' h cs s hres
          have heq : sel ++ [c] ++ resto = sel ++ c :: resto := by simp
          rw [heq]
          exact hle
    · refine ih ?_ hsum h cs s hres
      refine le_trans (sublist_multiset_le ?_) hle
      exact List.Sublist.append_left (List.sublist_cons_self c resto) sel

theorem mem_enumeracion {l : List ℚ} {k m : ℕ} {c : List ℚ} (hm : 1 ≤ m)
    (h : c ∈ (List.range' m k).flatMap (fun n => combinaciones n l)) :
    List.Sublist c l ∧ c ≠ [] := by
  rw [List.mem_flatMap] at h
  obtain ⟨n, hn, hc⟩ := h
  rw [List.mem_range'] at hn
  obtain ⟨i, _, rfl⟩ := hn
  refine ⟨combinaciones_sublist _ _ _ hc, combinaciones_ne_nil ?_ hc⟩
  omega

theorem adaptativaCombGo_spec {objetivo : ℚ} {pool : List ℚ} :
    ∀ {enum : List (List ℚ)} {mejor : Option (List ℚ × ℚ)} {menor : Option ℚ}
      {res : Option (List ℚ × ℚ)},
      (∀ c ∈ enum, (c : Multiset ℚ) ≤ (pool : Multiset ℚ) ∧ c ≠ []) →
      (∀ cs s, mejor = some (cs, s) →
        s = cs.sum ∧ (cs : Multiset ℚ) ≤ (pool : Multiset ℚ) ∧ cs ≠ []) →
      adaptativaCombGo objetivo enum mejor menor = .ok res →
      ∀ cs s, res = some (cs, s) →
        s = cs.sum ∧ (cs : Multiset ℚ) ≤ (pool : Multiset ℚ) ∧ cs ≠ [] := by
  intro enum
  induction enum with
  | nil =>
    intro mejor menor res hval hmejor h cs s hres
    simp only [adaptativaCombGo] at h
    cases h
    exact hmejor cs s hres
  | cons combo resto ih =>
    intro mejor menor res hval hmejor h cs s hres
    have hcombo := hval combo (by simp)
    have hval' : ∀ c ∈ resto, (c : Multiset ℚ) ≤ (pool : Multiset ℚ) ∧ c ≠ [] :=
      fun c hc => hval c (by simp [hc])
    simp only [adaptativaCombGo] at h
    by_cases h0 : objetivo = 0
    · rw [if_pos h0] at h
      exact absurd h (by simp)
    · rw [if_neg h0] at h
      by_cases hlt : ltOpcional (|combo.sum - objetivo| / objetivo) menor = true
      · rw [if_pos hlt] at h
        by_cases htol : |combo.sum - objetivo| / objetivo <
            (if objetivo > 50 then (0.05 : ℚ) else 0.15)
        · rw [if_pos htol] at h
          cases h
          cases hres
          exact ⟨rfl, hcombo.1, hcombo.2⟩
        · rw [if_neg htol] at h
          refine ih hval' ?_ h cs s hres
          intro cs' s' hm
          cases hm
          exact ⟨rfl, hcombo.1, hcombo.2⟩
      · rw [if_neg hlt] at h
        exact ih hval' hmejor h cs s hres

theorem agresivaGo_spec {objetivo : ℚ} {pool : List ℚ} :
    ∀ {enum : List (List ℚ)} {mejor : Option (List ℚ × ℚ)} {menor : Option ℚ}
      {res : Option (List ℚ × ℚ)},
      (∀ c ∈ enum, (c : Multiset ℚ) ≤ (pool : Multiset ℚ) ∧ c ≠ []) →
      (∀ cs s, mejor = some (cs, s) →
        s = cs.sum ∧ (cs : Multiset ℚ) ≤ (pool : Multiset ℚ) ∧ cs ≠ []) →
      agresivaGo objetivo enum mejor menor = .ok res →
      ∀ cs s, res = some (cs, s) →
        s = cs.sum ∧ (cs : Multiset ℚ) ≤ (pool : Multiset ℚ) ∧ cs ≠ [] := by
  intro enum
  induction enum with
  | nil =>
    intro mejor menor res hval hmejor h cs s hres
    simp only [agresivaGo] at h
    cases h
    exact hmejor cs s hres
  | cons combo resto ih =>
    intro mejor menor res hval hmejor h cs s hres
    have hcombo := hval combo (by simp)
    have hval' : ∀ c ∈ resto, (c : Multiset ℚ) ≤ (pool : Multiset ℚ) ∧ c ≠ [] :=
      fun c hc => hval c (by simp [hc])
    simp only [agresivaGo] at h
    by_cases h0 : objetivo = 0
    · rw [if_pos h0] at h
      exact absurd h (by simp)
    · rw [if_neg h0] at h
      by_cases hlt : ltOpcional (|combo.sum - objetivo| / objetivo) menor = true ∧
          combo.sum ≤ objetivo * 1.8
      · rw [if_pos hlt] at h
        by_cases htol : |combo.sum - objetivo| / objetivo < 0.15
        · rw [if_pos htol] at h
          cases h
          cases hres
          exact ⟨rfl, hcombo.1, hcombo.2⟩
        · rw [if_neg htol] at h
          refine ih hval' ?_ h cs s hres
          intro cs' s' hm
          cases hm
          exact ⟨rfl, hcombo.1, hcombo.2⟩
      · rw [if_neg hlt] at h
        exact ih hval' hmejor h cs s hres

theorem tomados_ordenados_le (clave : ℚ → ℚ) (l : List ℚ) (k : ℕ) :
    (((ordenarEstable clave l).take k : List ℚ) : Multiset ℚ) ≤ (l : Multiset ℚ) := by
  refine le_trans (sublist_multiset_le (List.take_sublist k _)) ?_
  rw [perm_multiset_eq (ordenarEstable_perm clave l)]

theorem adaptativa_spec {costos : List ℚ} {objetivo : ℚ} {maxE : ℕ} {cs : List ℚ} {s : ℚ}
    (h : buscarMejorCombinacionAdaptativa costos objetivo maxE = .ok (some (cs, s))) :
    s = cs.sum ∧ (cs : Multiset ℚ) ≤ (costos : Multiset ℚ) ∧ cs ≠ [] := by
  rw [buscarMejorCombinacionAdaptativa] at h
  split at h
  · refine adaptativaVoraz_spec ?_ (by simp) h cs s rfl
    simp only [List.nil_append]
    rw [perm_multiset_eq (ordenarDesc_perm costos)]
  · cases hmax : costos.max? with
    | none => rw [hmax] at h; exact absurd h (by simp)
    | some costoMax =>
      rw [hmax] at h
      refine adaptativaCombGo_spec ?_ (by intro cs' s' h0; exact Option.noConfusion h0)
        h cs s rfl
      intro c hc
      obtain ⟨hsub, hne⟩ := mem_enumeracion (le_refl 1) hc
      refine ⟨le_trans (sublist_multiset_le hsub) ?_, hne⟩
      refine le_trans (tomados_ordenados_le _ _ _) ?_
      split
      · exact le_refl _
      · exact sublist_multiset_le (List.filter_sublist costos)

theorem agresiva_spec {costos : List ℚ} {objetivo : ℚ} {cs : List ℚ} {s : ℚ}
    (h : buscarMejorCombinacionAgresiva costos objetivo = .ok (some (cs, s))) :
    s = cs.sum ∧ (cs : Multiset ℚ) ≤ (costos : Multiset ℚ) ∧ cs ≠ [] := by
  rw [buscarMejorCombinacionAgresiva] at h
  refine agresivaGo_spec ?_ (by intro cs' s' h0; exact Option.noConfusion h0) h cs s rfl
  intro c hc
  obtain ⟨hsub, hne⟩ := mem_enumeracion (le_refl 1) hc
  refine ⟨le_trans (sublist_multiset_le hsub) ?_, hne⟩
  refine le_trans (tomados_ordenados_le _ _ _) ?_
  exact sublist_multiset_le (List.filter_sublist costos)

theorem grupoGo_spec {pool : List ℚ} {muyPeq : List (String × ℚ)} :
    ∀ {enum : List (List (String × ℚ) × ℕ)} {mejor : Option MejorGrupo}
      {menor : Option ℚ} {res : Option MejorGrupo},
      (∀ p ∈ enum, ((p.1 : List (String × ℚ)) : Multiset (String × ℚ)) ≤
        (muyPeq : Multiset (String × ℚ)) ∧ p.1 ≠ []) →
      (∀ g, mejor = some g → g.suma = g.costos.sum ∧ (g.costos : Multiset ℚ) ≤ (pool : Multiset ℚ) ∧
        g.costos ≠ [] ∧ (g.objetivos : Multiset (String × ℚ)) ≤ (muyPeq : Multiset (String × ℚ)) ∧
        g.objetivos ≠ []) →
      grupoGo pool enum mejor menor = .ok res →
      ∀ g, res = some g → g.suma = g.costos.sum ∧ (g.costos : Multiset ℚ) ≤ (pool : Multiset ℚ) ∧
        g.costos ≠ [] ∧ (g.objetivos : Multiset (String × ℚ)) ≤ (muyPeq : Multiset (String × ℚ)) ∧
        g.objetivos ≠ [] := by
  intro enum
  induction enum with
  | nil =>
    intro mejor menor res hval hmejor h g hres
    simp only [grupoGo] at h
    cases h
    exact hmejor g hres
  | cons par resto ih =>
    obtain ⟨grupo, maxC⟩ := par
    intro mejor menor res hval hmejor h g hres
    have hgr := hval (grupo, maxC) (by simp)
    have hval' : ∀ p ∈ resto, ((p.1 : List (String × ℚ)) : Multiset (String × ℚ)) ≤
        (muyPeq : Multiset (String × ℚ)) ∧ p.1 ≠ [] :=
      fun p hp => hval p (by simp [hp])
    simp only [grupoGo] at h
    split at h
    · exact ih hval' hmejor h g hres
    · rename_i r cs s heq
      by_cases hlt : ltOpcional (|s - (grupo.map Prod.snd).sum|) menor = true
      · rw [if_pos hlt] at h
        by_cases hz : (grupo.map Prod.snd).sum = 0
        · rw [if_pos hz] at h
          exact absurd h (by simp)
        · rw [if_neg hz] at h
          obtain ⟨hsub, hsum, hne⟩ := buscarCoincidenciaExacta_spec heq
          by_cases htol : |s - (grupo.map Prod.snd).sum| / (grupo.map Prod.snd).sum < 0.05
          · rw [if_pos htol] at h
            cases h
            cases hres
            exact ⟨hsum, sublist_multiset_le hsub, hne, hgr.1, hgr.2⟩
          · rw [if_neg htol] at h
            refine ih hval' ?_ h g hres
            intro g' hg'
            cases hg'
            exact ⟨hsum, sublist_multiset_le hsub, hne, hgr.1, hgr.2⟩
      · rw [if_neg hlt] at h
        exact ih hval' hmejor h g hres

theorem encontrarMejorGrupo_spec {muyPeq : List (String × ℚ)} {pool : List ℚ}
    {g : MejorGrupo} (h : encontrarMejorGrupo muyPeq pool = .ok (some g)) :
    g.suma = g.costos.sum ∧ (g.costos : Multiset ℚ) ≤ (pool : Multiset ℚ) ∧ g.costos ≠ [] ∧
    (g.objetivos : Multiset (String × ℚ)) ≤ (muyPeq : Multiset (String × ℚ)) ∧
    g.objetivos ≠ [] := by
  rw [encontrarMejorGrupo] at h
  refine grupoGo_spec ?_ (by intro g' h0; exact Option.noConfusion h0) h g rfl
  intro p hp
  rw [List.mem_flatMap] at hp
  obtain ⟨t, ht, hp⟩ := hp
  rw [List.mem_range'] at ht
  obtain ⟨i, _, rfl⟩ := ht
  rw [List.mem_flatMap] at hp
  obtain ⟨gr, hgr, hp⟩ := hp
  have hp1 : p.1 = gr := by
    simp only [List.mem_cons, List.mem_singleton, List.not_mem_nil, or_false] at hp
    rcases hp with rfl | rfl <;> rfl
  rw [hp1]
  refine ⟨sublist_multiset_le (combinaciones_sublist _ _ _ hgr),
    combinaciones_ne_nil ?_ hgr⟩
  omega

/-! ### Construction lemmas for BuenaAsignacion -/

theorem buena_directa (nombre : String) (valor sA : ℚ) (csA : List ℚ)
    (hsum : sA = csA.sum) (hne : csA ≠ []) :
    BuenaAsignacion { objetivo := nombre, valorObjetivo := valor, costos := csA,
                      suma := sA, diferencia := abs (sA - valor),
                      precision := 100 - abs (sA - valor) / valor * 100 } := by
  refine ⟨hsum, rfl, fun _ => Or.inl rfl, ?_, fun h => absurd h hne⟩
  intro h
  simp at h

theorem buena_directa_clamp (nombre : String) (valor sA : ℚ) (csA : List ℚ)
    (hsum : sA = csA.sum) (hne : csA ≠ []) :
    BuenaAsignacion { objetivo := nombre, valorObjetivo := valor, costos := csA,
                      suma := sA, diferencia := abs (sA - valor),
                      precision := max 0 (100 - abs (sA - valor) / valor * 100) } := by
  refine ⟨hsum, rfl, fun _ => Or.inr rfl, ?_, fun h => absurd h hne⟩
  intro h
  simp at h

theorem buena_grupo (nombres : List String) (sumaObj sA : ℚ)
    (csA : List ℚ) (agr : List (String × ℚ)) (hsum : sA = csA.sum) (hne : csA ≠ [])
    (hagr : agr ≠ []) :
    BuenaAsignacion { objetivo := String.intercalate " + " nombres,
                      valorObjetivo := sumaObj, costos := csA, suma := sA,
                      diferencia := abs (sA - sumaObj),
                      precision := 100 - abs (sA - sumaObj) / sumaObj * 100,
                      esGrupo := true, objetivosAgrupados := some agr } := by
  refine ⟨hsum, rfl, fun _ => Or.inl rfl, ?_, fun h => absurd h hne⟩
  intro _
  simpa using hagr

theorem buena_terminal (nombre : String) (valor : ℚ) (hv : 0 ≤ valor) :
    BuenaAsignacion { objetivo := nombre, valorObjetivo := valor, costos := [],
                      suma := 0, diferencia := valor, precision := 0 } := by
  refine ⟨by simp, ?_, ?_, by intro h; simp at h, fun _ => ⟨rfl, rfl⟩⟩
  · show valor = |0 - valor|
    rw [zero_sub, abs_neg, abs_of_nonneg hv]
  · intro hv0
    refine Or.inl ?_
    show (0 : ℚ) = 100 - valor / valor * 100
    rw [div_self hv0]
    ring

theorem buenas_append {asigs : List Asignacion} {a : Asignacion}
    (h : ∀ x ∈ asigs, BuenaAsignacion x) (ha : BuenaAsignacion a) :
    ∀ x ∈ asigs ++ [a], BuenaAsignacion x := by
  intro x hx
  rcases List.mem_append.mp hx with h1 | h1
  · exact h x h1
  · rw [List.mem_singleton.mp h1]
    exact ha

theorem nombresDe_noGrupo {a : Asignacion} (h : a.esGrupo = false) :
    nombresDe a = [a.objetivo] := by
  simp [nombresDe, h]

/-! ### Phase specifications: conservation, coverage accounting, record quality -/

theorem fase0_spec {prom : ℚ} :
    ∀ {ext : List (String × ℚ)} {pool : List ℚ} {asigs : List Asignacion}
      {pool' : List ℚ} {asigs' : List Asignacion},
      fase0 prom ext pool asigs = .ok (pool', asigs') →
      asigCostos asigs' + (pool' : Multiset ℚ) = asigCostos asigs + (pool : Multiset ℚ) ∧
      cubiertos asigs' ≤ cubiertos asigs +
        ((ext.map Prod.fst : List String) : Multiset String) ∧
      ((∀ a ∈ asigs, BuenaAsignacion a) → ∀ a ∈ asigs', BuenaAsignacion a) := by
  intro ext
  induction ext with
  | nil =>
    intro pool asigs pool' asigs' h
    simp only [fase0] at h
    cases h
    exact ⟨rfl, by simp, fun h => h⟩
  | cons par resto ih =>
    obtain ⟨nombre, valor⟩ := par
    intro pool asigs pool' asigs' h
    simp only [fase0] at h
    split at h
    · exact Except.noConfusion h
    · split at h
      · exact Except.noConfusion h
      · rename_i csA sA heq
        by_cases hnil : csA = []
        · rw [if_pos hnil] at h
          obtain ⟨hc, hn, hb⟩ := ih h
          refine ⟨hc, le_trans hn ?_, hb⟩
          simp only [List.map_cons, ← Multiset.cons_coe]
          exact add_le_add_left (Multiset.le_cons_self _ _) _
        · rw [if_neg hnil] at h
          split at h
          · exact Except.noConfusion h
          · obtain ⟨hc, hn, hb⟩ := ih h
            obtain ⟨hsum, hle⟩ := fase0Voraz_top heq
            have hrem := removerCada_multiset csA pool hle
            refine ⟨?_, ?_, ?_⟩
            · rw [hc, asigCostos_append, asigCostos_singleton]
              show asigCostos asigs + (csA : Multiset ℚ) +
                (removerCada pool csA : Multiset ℚ) = asigCostos asigs + (pool : Multiset ℚ)
              rw [add_assoc, add_comm ((csA : List ℚ) : Multiset ℚ), hrem]
            · refine le_trans hn (le_of_eq ?_)
              rw [cubiertos_append, cubiertos_singleton, nombresDe_noGrupo rfl]
              rw [List.map_cons, Multiset.coe_singleton, ← Multiset.cons_coe,
                ← Multiset.singleton_add, ← add_assoc]
            · intro hbuenas
              refine hb (buenas_append hbuenas ?_)
              exact buena_directa nombre valor sA csA hsum hnil

theorem nombresDe_grupo_lit (nombres : List String) (sumaObj sA : ℚ)
    (csA : List ℚ) (agr : List (String × ℚ)) (hagr : agr ≠ []) :
    nombresDe { objetivo := String.intercalate " + " nombres,
                valorObjetivo := sumaObj, costos := csA, suma := sA,
                diferencia := abs (sA - sumaObj),
                precision := 100 - abs (sA - sumaObj) / sumaObj * 100,
                esGrupo := true, objetivosAgrupados := some agr } = agr.map Prod.fst := by
  simp [nombresDe, hagr]

theorem fase1_spec :
    ∀ (fuel : ℕ) {muyPeq normales : List (String × ℚ)} {pool : List ℚ}
      {asigs : List Asignacion} {normales' : List (String × ℚ)} {pool' : List ℚ}
      {asigs' : List Asignacion},
      fase1 fuel muyPeq normales pool asigs = .ok (normales', pool', asigs') →
      asigCostos asigs' + (pool' : Multiset ℚ) = asigCostos asigs + (pool : Multiset ℚ) ∧
      cubiertos asigs' + ((normales'.map Prod.fst : List String) : Multiset String) ≤
        cubiertos asigs + ((normales.map Prod.fst : List String) : Multiset String) +
        ((muyPeq.map Prod.fst : List String) : Multiset String) ∧
      ((∀ a ∈ asigs, BuenaAsignacion a) → ∀ a ∈ asigs', BuenaAsignacion a) := by
  intro fuel
  induction fuel with
  | zero =>
    intro muyPeq normales pool asigs normales' pool' asigs' h
    simp only [fase1] at h
    cases h
    exact ⟨rfl, le_add_right le_rfl, fun h => h⟩
  | succ fuel ih =>
    intro muyPeq normales pool asigs normales' pool' asigs' h
    simp only [fase1] at h
    split at h
    · cases h
      exact ⟨rfl, le_add_right le_rfl, fun h => h⟩
    · split at h
      · exact Except.noConfusion h
      · cases h
        refine ⟨rfl, le_of_eq ?_, fun h => h⟩
        simp only [List.map_append, ← Multiset.coe_add]
        rw [add_assoc]
      · rename_i g heq
        split at h
        · exact Except.noConfusion h
        · rename_i hz
          obtain ⟨hc, hn, hb⟩ := ih h
          obtain ⟨hsum, hcosle, hcosne, hobjle, hobjne⟩ := encontrarMejorGrupo_spec heq
          have hremc := removerCada_multiset g.costos pool hcosle
          have hremo := removerCada_multiset g.objetivos muyPeq hobjle
          have hzipne : (g.objetivos.map Prod.fst).zip (g.objetivos.map Prod.snd) ≠ [] := by
            rw [zip_map_fst_snd]
            exact hobjne
          refine ⟨?_, ?_, ?_⟩
          · rw [hc, asigCostos_append, asigCostos_singleton]
            show asigCostos asigs + (g.costos : Multiset ℚ) +
              (removerCada pool g.costos : Multiset ℚ) = asigCostos asigs + (pool : Multiset ℚ)
            rw [add_assoc, add_comm ((g.costos : List ℚ) : Multiset ℚ), hremc]
          · refine le_trans hn (le_of_eq ?_)
            rw [cubiertos_append, cubiertos_singleton, nombresDe_grupo_lit _ _ _ _ _ hzipne,
              zip_map_fst_snd]
            have hnames : ((removerCada muyPeq g.objetivos).map Prod.fst :
                  Multiset String) + (g.objetivos.map Prod.fst : Multiset String) =
                ((muyPeq.map Prod.fst : List String) : Multiset String) := by
              have := congrArg (Multiset.map Prod.fst) hremo
              simpa [Multiset.map_coe] using this
            rw [← hnames]
            generalize cubiertos asigs = A
            generalize ((g.objetivos.map Prod.fst : List String) : Multiset String) = B
            generalize ((normales.map Prod.fst : List String) : Multiset String) = C
            generalize ((removerCada muyPeq g.objetivos).map Prod.fst :
              Multiset String) = D
            rw [add_assoc, add_assoc, add_assoc]
            congr 1
            rw [add_comm B (C + D), add_assoc, add_comm D B]
          · intro hbuenas
            refine hb (buenas_append hbuenas ?_)
            exact buena_grupo (g.objetivos.map Prod.fst)
              ((g.objetivos.map Prod.snd).sum) g.suma g.costos
              ((g.objetivos.map Prod.fst).zip (g.objetivos.map Prod.snd)) hsum hcosne hzipne

theorem fase2Pass_spec {maxE : ℕ} :
    ∀ {pend : List (String × ℚ)} {pool : List ℚ} {asigs : List Asignacion}
      {pend' : List (String × ℚ)} {pool' : List ℚ} {asigs' : List Asignacion},
      fase2Pass maxE pend pool asigs = .ok (pend', pool', asigs') →
      asigCostos asigs' + (pool' : Multiset ℚ) = asigCostos asigs + (pool : Multiset ℚ) ∧
      cubiertos asigs' + ((pend'.map Prod.fst : List String) : Multiset String) =
        cubiertos asigs + ((pend.map Prod.fst : List String) : Multiset String) ∧
      ((∀ a ∈ asigs, BuenaAsignacion a) → ∀ a ∈ asigs', BuenaAsignacion a) := by
  intro pend
  induction pend with
  | nil =>
    intro pool asigs pend' pool' asigs' h
    simp only [fase2Pass] at h
    cases h
    exact ⟨rfl, rfl, fun h => h⟩
  | cons par resto ih =>
    obtain ⟨n, v⟩ := par
    intro pool asigs pend' pool' asigs' h
    simp only [fase2Pass] at h
    split at h
    · rename_i r cs s heq
      split at h
      · exact Except.noConfusion h
      · obtain ⟨hc, hn, hb⟩ := ih h
        obtain ⟨hsub, hsum, hne⟩ := buscarCoincidenciaExacta_spec heq
        have hrem := removerCada_multiset cs pool (sublist_multiset_le hsub)
        refine ⟨?_, ?_, ?_⟩
        · rw [hc, asigCostos_append, asigCostos_singleton]
          show asigCostos asigs + (cs : Multiset ℚ) +
            (removerCada pool cs : Multiset ℚ) = asigCostos asigs + (pool : Multiset ℚ)
          rw [add_assoc, add_comm ((cs : List ℚ) : Multiset ℚ), hrem]
        · rw [hn, cubiertos_append, cubiertos_singleton, nombresDe_noGrupo rfl]
          rw [List.map_cons, Multiset.coe_singleton, ← Multiset.cons_coe,
            ← Multiset.singleton_add, ← add_assoc]
        · intro hbuenas
          refine hb (buenas_append hbuenas ?_)
          exact buena_directa n v s cs hsum hne
    · split at h
      · exact Except.noConfusion h
      · rename_i r r1 p1 a1 heq
        cases h
        obtain ⟨hc1, hn1, hb1⟩ := ih heq
        refine ⟨hc1, ?_, hb1⟩
        rw [List.map_cons, List.map_cons, ← Multiset.cons_coe, ← Multiset.cons_coe,
          Multiset.add_cons, Multiset.add_cons, hn1]

theorem fase2_spec {pend : List (String × ℚ)} {pool : List ℚ} {asigs : List Asignacion}
    {pend' : List (String × ℚ)} {pool' : List ℚ} {asigs' : List Asignacion}
    (h : fase2 pend pool asigs = .ok (pend', pool', asigs')) :
    asigCostos asigs' + (pool' : Multiset ℚ) = asigCostos asigs + (pool : Multiset ℚ) ∧
    cubiertos asigs' + ((pend'.map Prod.fst : List String) : Multiset String) =
      cubiertos asigs + ((pend.map Prod.fst : List String) : Multiset String) ∧
    ((∀ a ∈ asigs, BuenaAsignacion a) → ∀ a ∈ asigs', BuenaAsignacion a) := by
  rw [fase2] at h
  split at h
  · exact Except.noConfusion h
  · rename_i r1 p1 c1 a1 heq1
    split at h
    · exact Except.noConfusion h
    · rename_i r2 p2 c2 a2 heq2
      obtain ⟨hc1, hn1, hb1⟩ := fase2Pass_spec heq1
      obtain ⟨hc2, hn2, hb2⟩ := fase2Pass_spec heq2
      obtain ⟨hc3, hn3, hb3⟩ := fase2Pass_spec h
      refine ⟨by rw [hc3, hc2, hc1], by rw [hn3, hn2, hn1], fun hb => hb3 (hb2 (hb1 hb))⟩

theorem fase3Grandes_spec {prom : ℚ} :
    ∀ {lista : List (String × ℚ)} {pool : List ℚ} {asigs : List Asignacion}
      {pool' : List ℚ} {asigs' : List Asignacion},
      fase3Grandes prom lista pool asigs = .ok (pool', asigs') →
      asigCostos asigs' + (pool' : Multiset ℚ) = asigCostos asigs + (pool : Multiset ℚ) ∧
      cubiertos asigs' ≤ cubiertos asigs +
        ((lista.map Prod.fst : List String) : Multiset String) ∧
      ((∀ a ∈ asigs, BuenaAsignacion a) → ∀ a ∈ asigs', BuenaAsignacion a) := by
  intro lista
  induction lista with
  | nil =>
    intro pool asigs pool' asigs' h
    simp only [fase3Grandes] at h
    cases h
    exact ⟨rfl, by simp, fun h => h⟩
  | cons par resto ih =>
    obtain ⟨n, v⟩ := par
    intro pool asigs pool' asigs' h
    have hdrop : ∀ {pool₀ : List ℚ} {asigs₀ : List Asignacion},
        fase3Grandes prom resto pool₀ asigs₀ = .ok (pool', asigs') →
        asigCostos asigs₀ = asigCostos asigs → (pool₀ : Multiset ℚ) = (pool : Multiset ℚ) →
        cubiertos asigs₀ = cubiertos asigs →
        ((∀ a ∈ asigs, BuenaAsignacion a) → ∀ a ∈ asigs₀, BuenaAsignacion a) →
        asigCostos asigs' + (pool' : Multiset ℚ) = asigCostos asigs + (pool : Multiset ℚ) ∧
        cubiertos asigs' ≤ cubiertos asigs +
          ((((n, v) :: resto).map Prod.fst : List String) : Multiset String) ∧
        ((∀ a ∈ asigs, BuenaAsignacion a) → ∀ a ∈ asigs', BuenaAsignacion a) := by
      intro pool₀ asigs₀ h0 hceq hpeq hneq hbeq
      obtain ⟨hc, hn, hb⟩ := ih h0
      refine ⟨by rw [hc, hceq, hpeq], ?_, fun hx => hb (hbeq hx)⟩
      refine le_trans hn ?_
      rw [hneq]
      simp only [List.map_cons, ← Multiset.cons_coe]
      exact add_le_add_left (Multiset.le_cons_self _ _) _
    simp only [fase3Grandes] at h
    split at h
    · exact hdrop h rfl (by rename_i hp; rw [hp]) rfl (fun hx => hx)
    · split at h
      · exact Except.noConfusion h
      · split at h
        · exact Except.noConfusion h
        · exact hdrop h rfl rfl rfl (fun hx => hx)
        · rename_i r cs s heq
          split at h
          · exact Except.noConfusion h
          · obtain ⟨hc, hn, hb⟩ := ih h
            obtain ⟨hsum, hle, hne⟩ := adaptativa_spec heq
            have hrem := removerCada_multiset cs pool hle
            refine ⟨?_, ?_, ?_⟩
            · rw [hc, asigCostos_append, asigCostos_singleton]
              show asigCostos asigs + (cs : Multiset ℚ) +
                (removerCada pool cs : Multiset ℚ) = asigCostos asigs + (pool : Multiset ℚ)
              rw [add_assoc, add_comm ((cs : List ℚ) : Multiset ℚ), hrem]
            · refine le_trans hn ?_
              rw [cubiertos_append, cubiertos_singleton, nombresDe_noGrupo rfl]
              refine le_of_eq ?_
              rw [List.map_cons, Multiset.coe_singleton, ← Multiset.cons_coe,
                ← Multiset.singleton_add, ← add_assoc]
            · intro hbuenas
              refine hb (buenas_append hbuenas ?_)
              exact buena_directa n v s cs hsum hne

theorem pasoMediano_spec {pool : List ℚ} {asigs : List Asignacion} {t : String × ℚ}
    {pool' : List ℚ} {asigs' : List Asignacion}
    (h : pasoMediano pool asigs t = .ok (pool', asigs')) :
    asigCostos asigs' + (pool' : Multiset ℚ) = asigCostos asigs + (pool : Multiset ℚ) ∧
    cubiertos asigs' ≤ cubiertos asigs + {t.1} ∧
    ((∀ a ∈ asigs, BuenaAsignacion a) → ∀ a ∈ asigs', BuenaAsignacion a) := by
  rw [pasoMediano] at h
  split at h
  · split at h
    · exact Except.noConfusion h
    · cases h
      exact ⟨rfl, le_add_right le_rfl, fun h => h⟩
    · rename_i r cs s heq
      split at h
      · exact Except.noConfusion h
      · cases h
        obtain ⟨hsum, hle, hne⟩ := agresiva_spec heq
        have hrem := removerCada_multiset cs pool hle
        refine ⟨?_, ?_, ?_⟩
        · rw [asigCostos_append, asigCostos_singleton]
          show asigCostos asigs + (cs : Multiset ℚ) +
            (removerCada pool cs : Multiset ℚ) = asigCostos asigs + (pool : Multiset ℚ)
          rw [add_assoc, add_comm ((cs : List ℚ) : Multiset ℚ), hrem]
        · rw [cubiertos_append, cubiertos_singleton, nombresDe_noGrupo rfl]
          exact le_of_eq rfl
        · intro hbuenas
          exact buenas_append hbuenas (buena_directa t.1 t.2 s cs hsum hne)
  · cases h
    exact ⟨rfl, le_add_right le_rfl, fun h => h⟩

theorem fase3Medianos_spec :
    ∀ {lista : List (String × ℚ)} {pool : List ℚ} {asigs : List Asignacion}
      {pool' : List ℚ} {asigs' : List Asignacion},
      fase3Medianos lista pool asigs = .ok (pool', asigs') →
      asigCostos asigs' + (pool' : Multiset ℚ) = asigCostos asigs + (pool : Multiset ℚ) ∧
      cubiertos asigs' ≤ cubiertos asigs +
        ((lista.map Prod.fst : List String) : Multiset String) ∧
      ((∀ a ∈ asigs, BuenaAsignacion a) → ∀ a ∈ asigs', BuenaAsignacion a) := by
  intro lista
  induction lista with
  | nil =>
    intro pool asigs pool' asigs' h
    simp only [fase3Medianos] at h
    cases h
    exact ⟨rfl, by simp, fun h => h⟩
  | cons t resto ih =>
    intro pool asigs pool' asigs' h
    simp only [fase3Medianos] at h
    split at h
    · exact Except.noConfusion h
    · rename_i r p1 a1 heq
      obtain ⟨hc1, hn1, hb1⟩ := pasoMediano_spec heq
      obtain ⟨hc, hn, hb⟩ := ih h
      refine ⟨by rw [hc, hc1], ?_, fun hx => hb (hb1 hx)⟩
      refine le_trans hn (le_trans (add_le_add_right hn1 _) (le_of_eq ?_))
      rw [List.map_cons, ← Multiset.cons_coe, add_assoc, Multiset.singleton_add]

theorem pasoPequeno_spec {pool : List ℚ} {asigs : List Asignacion} {t : String × ℚ}
    {pool' : List ℚ} {asigs' : List Asignacion}
    (h : pasoPequeno pool asigs t = .ok (pool', asigs')) :
    asigCostos asigs' + (pool' : Multiset ℚ) = asigCostos asigs + (pool : Multiset ℚ) ∧
    cubiertos asigs' ≤ cubiertos asigs + {t.1} ∧
    ((∀ a ∈ asigs, BuenaAsignacion a) → ∀ a ∈ asigs', BuenaAsignacion a) := by
  rw [pasoPequeno.eq_def] at h
  split at h
  · cases h
    exact ⟨rfl, le_add_right le_rfl, fun h => h⟩
  · rename_i c resto
    split at h
    · exact Except.noConfusion h
    · cases h
      have hmem : minPorClave (fun x => |x - t.2|) c resto ∈ c :: resto :=
        minPorClave_mem _ resto c
      have hpool := erase_multiset_de_mem hmem
      refine ⟨?_, ?_, ?_⟩
      · rw [asigCostos_append, asigCostos_singleton]
        show asigCostos asigs + ([minPorClave (fun x => |x - t.2|) c resto] : Multiset ℚ) +
          ((c :: resto : List ℚ).erase (minPorClave (fun x => |x - t.2|) c resto) :
            Multiset ℚ) = asigCostos asigs + ((c :: resto : List ℚ) : Multiset ℚ)
        rw [hpool, Multiset.coe_singleton, add_assoc, Multiset.singleton_add,
          Multiset.add_cons]
      · rw [cubiertos_append, cubiertos_singleton, nombresDe_noGrupo rfl]
        exact le_of_eq rfl
      · intro hbuenas
        refine buenas_append hbuenas ?_
        exact buena_directa_clamp t.1 t.2 (minPorClave (fun x => |x - t.2|) c resto)
          [minPorClave (fun x => |x - t.2|) c resto] (by simp) (by simp)

theorem fase3Pequenos_spec :
    ∀ {lista : List (String × ℚ)} {pool : List ℚ} {asigs : List Asignacion}
      {pool' : List ℚ} {asigs' : List Asignacion},
      fase3Pequenos lista pool asigs = .ok (pool', asigs') →
      asigCostos asigs' + (pool' : Multiset ℚ) = asigCostos asigs + (pool : Multiset ℚ) ∧
      cubiertos asigs' ≤ cubiertos asigs +
        ((lista.map Prod.fst : List String) : Multiset String) ∧
      ((∀ a ∈ asigs, BuenaAsignacion a) → ∀ a ∈ asigs', BuenaAsignacion a) := by
  intro lista
  induction lista with
  | nil =>
    intro pool asigs pool' asigs' h
    simp only [fase3Pequenos] at h
    cases h
    exact ⟨rfl, by simp, fun h => h⟩
  | cons t resto ih =>
    intro pool asigs pool' asigs' h
    simp only [fase3Pequenos] at h
    split at h
    · exact Except.noConfusion h
    · rename_i r p1 a1 heq
      obtain ⟨hc1, hn1, hb1⟩ := pasoPequeno_spec heq
      obtain ⟨hc, hn, hb⟩ := ih h
      refine ⟨by rw [hc, hc1], ?_, fun hx => hb (hb1 hx)⟩
      refine le_trans hn (le_trans (add_le_add_right hn1 _) (le_of_eq ?_))
      rw [List.map_cons, ← Multiset.cons_coe, add_assoc, Multiset.singleton_add]

/-! ### Forced redistribution specifications -/

theorem get?_lt_length {α : Type} {l : List α} {i : ℕ} {a : α} (h : l.get? i = some a) :
    i < l.length := by
  by_contra hge
  rw [List.get?_eq_getElem?, List.getElem?_eq_none (by omega)] at h
  exact Option.noConfusion h

theorem lt_length_get? {α : Type} {l : List α} {i : ℕ} (h : i < l.length) :
    ∃ a, l.get? i = some a := by
  rw [List.get?_eq_getElem?]
  exact ⟨l[i], List.getElem?_eq_getElem h⟩

theorem mejorIndicePara_ne_none {cur : List Asignacion} {costo : ℚ} :
    ∀ {orden : List ℕ} {mejor : Option (ℕ × ℚ)},
      (mejor ≠ none ∨ ∃ i ∈ orden, ∃ a, cur.get? i = some a) →
      mejorIndicePara cur costo orden mejor ≠ none := by
  intro orden
  induction orden with
  | nil =>
    intro mejor hyp hcontra
    simp only [mejorIndicePara] at hcontra
    rcases hyp with hne | ⟨i, hi, _⟩
    · exact hne hcontra
    · simp at hi
  | cons i resto ih =>
    intro mejor hyp hcontra
    simp only [mejorIndicePara] at hcontra
    split at hcontra
    · rename_i heq
      refine ih ?_ hcontra
      rcases hyp with hne | ⟨j, hj, a, hja⟩
      · exact Or.inl hne
      · rcases List.mem_cons.mp hj with rfl | hj'
        · rw [heq] at hja
          exact Option.noConfusion hja
        · exact Or.inr ⟨j, hj', a, hja⟩
    · rename_i a heq
      split at hcontra
      · exact ih (Or.inl (by simp)) hcontra
      · rename_i htomar
        refine ih (Or.inl ?_) hcontra
        cases hm : mejor with
        | none =>
          rw [hm] at htomar
          simp at htomar
        | some m => simp

theorem mejorIndicePara_valid {cur : List Asignacion} {costo : ℚ} :
    ∀ {orden : List ℕ} {mejor : Option (ℕ × ℚ)} {i : ℕ} {m : ℚ},
      (∀ j m', mejor = some (j, m') → ∃ a, cur.get? j = some a) →
      mejorIndicePara cur costo orden mejor = some (i, m) →
      ∃ a, cur.get? i = some a := by
  intro orden
  induction orden with
  | nil =>
    intro mejor i m hval h
    simp only [mejorIndicePara] at h
    exact hval i m h
  | cons j resto ih =>
    intro mejor i m hval h
    simp only [mejorIndicePara] at h
    split at h
    · exact ih hval h
    · rename_i a heq
      split at h
      · refine ih ?_ h
        intro j' m' hj'
        cases hj'
        exact ⟨a, heq⟩
      · exact ih hval h

theorem asigCostos_set :
    ∀ (cur : List Asignacion) (i : ℕ) (a b : Asignacion), cur.get? i = some a →
      asigCostos (cur.set i b) + (a.costos : Multiset ℚ) =
        asigCostos cur + (b.costos : Multiset ℚ) := by
  intro cur
  induction cur with
  | nil => intro i a b h; simp at h
  | cons x t ih =>
    intro i a b h
    cases i with
    | zero =>
      have hxa : a = x := by simpa using h.symm
      subst hxa
      show asigCostos (b :: t) + (a.costos : Multiset ℚ) =
        asigCostos (a :: t) + (b.costos : Multiset ℚ)
      simp only [asigCostos, List.map_cons, List.sum_cons]
      abel
    | succ i =>
      simp only [List.get?] at h
      show asigCostos (x :: t.set i b) + (a.costos : Multiset ℚ) =
        asigCostos (x :: t) + (b.costos : Multiset ℚ)
      simp only [asigCostos, List.map_cons, List.sum_cons]
      have hrec := ih i a b h
      simp only [asigCostos] at hrec
      rw [add_assoc, hrec, ← add_assoc]

theorem cubiertos_set :
    ∀ (cur : List Asignacion) (i : ℕ) (a b : Asignacion), cur.get? i = some a →
      nombresDe b = nombresDe a → cubiertos (cur.set i b) = cubiertos cur := by
  intro cur
  induction cur with
  | nil => intro i a b h _; simp at h
  | cons x t ih =>
    intro i a b h hnom
    cases i with
    | zero =>
      have hxa : a = x := by simpa using h.symm
      subst hxa
      show cubiertos (b :: t) = cubiertos (a :: t)
      simp only [cubiertos, nombresCubiertos, List.flatMap_cons, ← Multiset.coe_add]
      rw [hnom]
    | succ i =>
      simp only [List.get?] at h
      show cubiertos (x :: t.set i b) = cubiertos (x :: t)
      simp only [cubiertos, nombresCubiertos, List.flatMap_cons, ← Multiset.coe_add]
      have hrec := ih i a b h hnom
      simp only [cubiertos, nombresCubiertos] at hrec
      rw [hrec]

theorem asigCostos_set_mas {cur : List Asignacion} {i : ℕ} {a b : Asignacion} {costo : ℚ}
    (hget : cur.get? i = some a) (hbc : b.costos = a.costos ++ [costo]) :
    asigCostos (cur.set i b) = asigCostos cur + {costo} := by
  have h2 := asigCostos_set cur i a b hget
  rw [hbc] at h2
  have h3 : ((a.costos ++ [costo] : List ℚ) : Multiset ℚ) =
      (a.costos : Multiset ℚ) + {costo} := by
    rw [← Multiset.coe_add, Multiset.coe_singleton]
  rw [h3] at h2
  have h4 : asigCostos cur + ((a.costos : Multiset ℚ) + {costo}) =
      asigCostos cur + {costo} + (a.costos : Multiset ℚ) := by abel
  rw [h4] at h2
  exact add_right_cancel h2

theorem buena_actualizada {a : Asignacion} (costo : ℚ) (hb : BuenaAsignacion a) :
    BuenaAsignacion { a with
      costos := a.costos ++ [costo],
      suma := a.suma + costo,
      diferencia := abs (a.suma + costo - a.valorObjetivo),
      precision := max 0 (100 - abs (a.suma + costo - a.valorObjetivo) /
        a.valorObjetivo * 100) } := by
  obtain ⟨h1, _, _, h4, _⟩ := hb
  refine ⟨by simp [h1], rfl, fun _ => Or.inr rfl, h4, by simp⟩

theorem distribuirGo_spec {orden : List ℕ} :
    ∀ {costos : List ℚ} {cur cur' : List Asignacion},
      distribuirGo orden costos cur = .ok cur' →
      cur'.length = cur.length ∧
      asigCostos cur' ≤ asigCostos cur + (costos : Multiset ℚ) ∧
      cubiertos cur' = cubiertos cur ∧
      ((∀ a ∈ cur, BuenaAsignacion a) → ∀ a ∈ cur', BuenaAsignacion a) ∧
      ((orden ≠ [] ∧ ∀ j ∈ orden, j < cur.length) →
        asigCostos cur' = asigCostos cur + (costos : Multiset ℚ)) := by
  intro costos
  induction costos with
  | nil =>
    intro cur cur' h
    simp only [distribuirGo] at h
    cases h
    exact ⟨rfl, by simp, rfl, fun h => h, fun _ => by simp⟩
  | cons costo resto ih =>
    intro cur cur' h
    simp only [distribuirGo] at h
    split at h
    · rename_i heqm
      obtain ⟨hl, hc, hn, hb, hfull⟩ := ih h
      refine ⟨hl, ?_, hn, hb, ?_⟩
      · refine le_trans hc ?_
        rw [← Multiset.cons_coe, Multiset.add_cons]
        exact Multiset.le_cons_self _ _
      · intro ⟨hne, hvalid⟩
        exfalso
        refine mejorIndicePara_ne_none ?_ heqm
        refine Or.inr ?_
        cases orden with
        | nil => exact absurd rfl hne
        | cons j resto' =>
          exact ⟨j, by simp, lt_length_get? (hvalid j (by simp))⟩
    · rename_i par i m heqm
      split at h
      · rename_i heqget
        obtain ⟨hl, hc, hn, hb, hfull⟩ := ih h
        refine ⟨hl, ?_, hn, hb, ?_⟩
        · refine le_trans hc ?_
          rw [← Multiset.cons_coe, Multiset.add_cons]
          exact Multiset.le_cons_self _ _
        · intro ⟨hne, hvalid⟩
          exfalso
          obtain ⟨a, hget⟩ := mejorIndicePara_valid
            (by intro j m' hj; exact Option.noConfusion hj) heqm
          rw [heqget] at hget
          exact Option.noConfusion hget
      · rename_i a heqget
        split at h
        · exact Except.noConfusion h
        · rename_i hv0
          set b : Asignacion := { a with
              costos := a.costos ++ [costo],
              suma := a.suma + costo,
              diferencia := abs (a.suma + costo - a.valorObjetivo),
              precision := max 0 (100 - abs (a.suma + costo - a.valorObjetivo) /
                a.valorObjetivo * 100) } with hbdef
          obtain ⟨hl, hc, hn, hb, hfull⟩ := ih h
          have hsetc : asigCostos (cur.set i b) = asigCostos cur + {costo} :=
            asigCostos_set_mas heqget (by rw [hbdef])
          have hcub : cubiertos (cur.set i b) = cubiertos cur :=
            cubiertos_set cur i a b heqget (by rw [hbdef]; rfl)
          have hbbuena : BuenaAsignacion a → BuenaAsignacion b := by
            rw [hbdef]
            exact buena_actualizada costo
          refine ⟨by rw [hl, List.length_set], ?_, ?_, ?_, ?_⟩
          · refine le_trans hc ?_
            rw [hsetc, ← Multiset.cons_coe, Multiset.add_cons, add_assoc,
              Multiset.singleton_add, Multiset.add_cons]
          · rw [hn, hcub]
          · intro hbuenas
            refine hb ?_
            intro x hx
            rcases List.mem_or_eq_of_mem_set hx with hx1 | hx1
            · exact hbuenas x hx1
            · rw [hx1]
              exact hbbuena (hbuenas a (mem_de_get? heqget))
          · intro ⟨hne, hvalid⟩
            have hfin := hfull ⟨hne, by rw [List.length_set]; exact hvalid⟩
            rw [hfin, hsetc, ← Multiset.cons_coe, Multiset.add_cons, add_assoc,
              Multiset.singleton_add, Multiset.add_cons]

theorem distribuirForzadamente_spec {asigs : List Asignacion} {costos : List ℚ}
    {out : List Asignacion} (h : distribuirForzadamente asigs costos = .ok out) :
    out.length = asigs.length ∧
    asigCostos out ≤ asigCostos asigs + (costos : Multiset ℚ) ∧
    cubiertos out = cubiertos asigs ∧
    ((∀ a ∈ asigs, BuenaAsignacion a) → ∀ a ∈ out, BuenaAsignacion a) ∧
    (asigs ≠ [] → asigCostos out = asigCostos asigs + (costos : Multiset ℚ)) := by
  rw [distribuirForzadamente] at h
  obtain ⟨hl, hc, hn, hb, hfull⟩ := distribuirGo_spec h
  refine ⟨hl, hc, hn, hb, ?_⟩
  intro hne
  have hperm := ordenarEstable_perm (fun p => p.2.precision) asigs.enum
  refine hfull ⟨?_, ?_⟩
  · intro hvacio
    have hlen : asigs.enum.length = 0 := by
      rw [← hperm.length_eq, ← List.length_map (f := Prod.fst), hvacio]
      rfl
    rw [List.enum_length, List.length_eq_zero] at hlen
    exact hne hlen
  · intro j hj
    obtain ⟨p, hp, hpj⟩ := List.mem_map.mp hj
    have hpmem : p ∈ asigs.enum := hperm.mem_iff.mp hp
    rw [← hpj]
    exact List.fst_lt_of_mem_enum hpmem

/-! ### Finalization specifications -/

theorem finalizar_asigCostos (objs : List (String × ℚ)) (asigs : List Asignacion) :
    asigCostos (finalizar objs asigs) = asigCostos asigs := by
  rw [finalizar, asigCostos_append]
  have hz : asigCostos ((objs.filter
      (fun p => decide (p.1 ∉ nombresCubiertos asigs))).map
      (fun p => { objetivo := p.1, valorObjetivo := p.2, costos := [], suma := 0,
                  diferencia := p.2, precision := 0 })) = 0 := by
    rw [asigCostos]
    refine List.sum_eq_zero ?_
    intro x hx
    simp only [List.map_map, List.mem_map] at hx
    obtain ⟨p, _, rfl⟩ := hx
    rfl
  rw [hz, add_zero]

theorem finalizar_buenas {objs : List (String × ℚ)} {asigs : List Asignacion}
    (hb : ∀ a ∈ asigs, BuenaAsignacion a) (hv : ∀ p ∈ objs, 0 ≤ p.2) :
    ∀ a ∈ finalizar objs asigs, BuenaAsignacion a := by
  intro a ha
  rw [finalizar] at ha
  rcases List.mem_append.mp ha with h1 | h1
  · exact hb a h1
  · obtain ⟨p, hp, rfl⟩ := List.mem_map.mp h1
    exact buena_terminal p.1 p.2 (hv p (List.mem_of_mem_filter hp))

theorem finalizar_grupos {objs : List (String × ℚ)} {asigs : List Asignacion}
    (hg : ∀ a ∈ asigs, a.esGrupo = true → a.objetivosAgrupados.getD [] ≠ []) :
    ∀ a ∈ finalizar objs asigs, a.esGrupo = true → a.objetivosAgrupados.getD [] ≠ [] := by
  intro a ha
  rw [finalizar] at ha
  rcases List.mem_append.mp ha with h1 | h1
  · exact hg a h1
  · obtain ⟨p, hp, rfl⟩ := List.mem_map.mp h1
    intro hfalso
    simp at hfalso

theorem cubiertos_finalizar (objs : List (String × ℚ)) (asigs : List Asignacion) :
    cubiertos (finalizar objs asigs) = cubiertos asigs +
      (((objs.filter (fun p => decide (p.1 ∉ nombresCubiertos asigs))).map Prod.fst :
        List String) : Multiset String) := by
  have hflat : ∀ l : List (String × ℚ),
      nombresCubiertos (l.map (fun p =>
        { objetivo := p.1, valorObjetivo := p.2, costos := [], suma := 0,
          diferencia := p.2, precision := 0 })) = l.map Prod.fst := by
    intro l
    induction l with
    | nil => rfl
    | cons x t ih => simp [nombresCubiertos, nombresDe, List.flatMap_cons] at ih ⊢; exact ih
  rw [finalizar, cubiertos_append]
  congr 1
  rw [cubiertos, hflat]

theorem count_map_fst_filter (pred : String × ℚ → Bool) (nombre : String)
    (hpred : ∀ v : ℚ, pred (nombre, v) = true) :
    ∀ objs : List (String × ℚ),
      ((objs.filter pred).map Prod.fst).count nombre = (objs.map Prod.fst).count nombre := by
  intro objs
  induction objs with
  | nil => rfl
  | cons t resto ih =>
    obtain ⟨n, v⟩ := t
    by_cases hn : n = nombre
    · subst hn
      simp [List.filter_cons, hpred v, List.count_cons, ih]
    · have hn' : nombre ≠ n := fun he => hn he.symm
      by_cases hp : pred (n, v) = true
      · simp [List.filter_cons, hp, List.count_cons, hn', ih]
      · simp [List.filter_cons, hp, List.count_cons, hn', ih]

theorem finalizar_count {objs : List (String × ℚ)} {asigs : List Asignacion}
    {nombre : String} (hmem : nombre ∈ objs.map Prod.fst)
    (hnodup : (objs.map Prod.fst).Nodup)
    (hle : Multiset.count nombre (cubiertos asigs) ≤ 1) :
    Multiset.count nombre (cubiertos (finalizar objs asigs)) = 1 := by
  rw [cubiertos_finalizar, Multiset.count_add, Multiset.coe_count]
  have hobjs1 : (objs.map Prod.fst).count nombre = 1 :=
    List.count_eq_one_of_mem hnodup hmem
  by_cases hcov : nombre ∈ nombresCubiertos asigs
  · have h1 : 1 ≤ Multiset.count nombre (cubiertos asigs) := by
      rw [cubiertos, Multiset.coe_count]
      exact List.count_pos_iff.mpr hcov
    have hfil : ((objs.filter
        (fun p => decide (p.1 ∉ nombresCubiertos asigs))).map Prod.fst).count nombre = 0 := by
      rw [List.count_eq_zero]
      intro hmem'
      obtain ⟨p, hp, hp1⟩ := List.mem_map.mp hmem'
      have := List.of_mem_filter hp
      rw [hp1] at this
      simp at this
      exact this hcov
    omega
  · have h0 : Multiset.count nombre (cubiertos asigs) = 0 := by
      rw [cubiertos, Multiset.coe_count, List.count_eq_zero]
      exact hcov
    have hfil : ((objs.filter
        (fun p => decide (p.1 ∉ nombresCubiertos asigs))).map Prod.fst).count nombre = 1 := by
      rw [count_map_fst_filter _ _ (fun v => by simpa using hcov) objs, hobjs1]
    omega

/-! ### Target classification -/

theorem clasificar_perm (cmax cmin : ℚ) :
    ∀ objs : List (String × ℚ),
      List.Perm ((clasificarObjetivos cmax cmin objs).1 ++
        ((clasificarObjetivos cmax cmin objs).2.1 ++ (clasificarObjetivos cmax cmin objs).2.2))
        objs := by
  intro objs
  induction objs with
  | nil => simp [clasificarObjetivos]
  | cons t resto ih =>
    obtain ⟨n, v⟩ := t
    rcases hcl : clasificarObjetivos cmax cmin resto with ⟨e, p, nor⟩
    rw [hcl] at ih
    simp only at ih
    simp only [clasificarObjetivos, hcl]
    by_cases h1 : v > cmax * 10
    · rw [if_pos h1]
      show List.Perm (((n, v) :: e) ++ (p ++ nor)) ((n, v) :: resto)
      exact ih.cons (n, v)
    · rw [if_neg h1]
      by_cases h2 : v < cmin * 0.7
      · rw [if_pos h2]
        show List.Perm (e ++ ((n, v) :: (p ++ nor))) ((n, v) :: resto)
        exact List.Perm.trans List.perm_middle (ih.cons (n, v))
      · rw [if_neg h2]
        show List.Perm (e ++ (p ++ (n, v) :: nor)) ((n, v) :: resto)
        rw [← List.append_assoc]
        refine List.Perm.trans List.perm_middle ?_
        rw [List.append_assoc]
        exact ih.cons (n, v)

theorem nombres_perm_coe {l1 l2 : List (String × ℚ)} (h : List.Perm l1 l2) :
    ((l1.map Prod.fst : List String) : Multiset String) =
    ((l2.map Prod.fst : List String) : Multiset String) :=
  perm_multiset_eq (h.map Prod.fst)

theorem nombres_append_coe (l1 l2 : List (String × ℚ)) :
    (((l1 ++ l2).map Prod.fst : List String) : Multiset String) =
    ((l1.map Prod.fst : List String) : Multiset String) +
    ((l2.map Prod.fst : List String) : Multiset String) := by
  rw [List.map_append, ← Multiset.coe_add]

theorem nombres_filtros_particion (p1 p2 p3 : String × ℚ → Bool) (l : List (String × ℚ))
    (h : ∀ x ∈ l, (p1 x).toNat + (p2 x).toNat + (p3 x).toNat = 1) :
    (((l.filter p1).map Prod.fst : List String) : Multiset String) +
    (((l.filter p2).map Prod.fst : List String) : Multiset String) +
    (((l.filter p3).map Prod.fst : List String) : Multiset String) =
    ((l.map Prod.fst : List String) : Multiset String) := by
  have hpart := filtros_particion p1 p2 p3 l h
  have hmapa := congrArg (Multiset.map Prod.fst) hpart
  simpa [Multiset.map_add] using hmapa

theorem cadena_min_prom {costos pool3 : List ℚ} {resto : Multiset ℚ}
    (hnn : ∀ c ∈ costos, 0 ≤ c)
    (hcons : resto + (pool3 : Multiset ℚ) = (costos : Multiset ℚ)) :
    costos.min?.getD 0 ≤ (if pool3.length = 0 then
        (if costos.length = 0 then (0 : ℚ) else costos.sum / costos.length)
      else pool3.sum / pool3.length) * 2 := by
  by_cases hcnil : costos = []
  · subst hcnil
    have hp3 : pool3 = [] := by
      have hle : (pool3 : Multiset ℚ) ≤ 0 := by
        rw [show ((0 : Multiset ℚ)) = (([] : List ℚ) : Multiset ℚ) from rfl, ← hcons]
        exact le_add_self
      have hz := Multiset.le_zero.mp hle
      exact (Multiset.coe_eq_zero pool3).mp hz
    subst hp3
    norm_num
  · obtain ⟨m, hm⟩ : ∃ m, costos.min? = some m := by
      cases hminq : costos.min? with
      | none => exact absurd (List.min?_eq_none_iff.mp hminq) hcnil
      | some m => exact ⟨m, rfl⟩
    have hanti : Std.Antisymm (fun x1 x2 : ℚ => x1 ≤ x2) := ⟨fun h1 h2 => le_antisymm h1 h2⟩
    have hmm := (List.min?_eq_some_iff le_refl min_choice (fun _ _ _ => le_min_iff)).mp hm
    have hmmem : m ∈ costos := hmm.1
    have hm0 : 0 ≤ m := hnn m hmmem
    have hmin_le : ∀ x ∈ costos, m ≤ x := hmm.2
    rw [hm]
    simp only [Option.getD_some]
    have hclen : ¬(costos.length = 0) := fun hc => hcnil (List.length_eq_zero.mp hc)
    by_cases hp3 : pool3.length = 0
    · rw [if_pos hp3, if_neg hclen]
      have hprom := min_le_promedio hcnil hmin_le
      linarith
    · rw [if_neg hp3]
      have hpool_ne : pool3 ≠ [] := fun he => hp3 (by rw [he]; rfl)
      have hsub : ∀ x ∈ pool3, m ≤ x := by
        intro x hx
        have hle : (pool3 : Multiset ℚ) ≤ (costos : Multiset ℚ) := by
          rw [← hcons]
          exact le_add_self
        have hxc : x ∈ costos :=
          Multiset.mem_coe.mp (Multiset.mem_of_le hle (Multiset.mem_coe.mpr hx))
        exact hmin_le x hxc
      have hprom := min_le_promedio hpool_ne hsub
      linarith

/-- Full pipeline decomposition of `resolver_completa`: the output is the
finalization of some committed assignment list that uses each input cost at
most once, consists of well-formed records, and (on nonnegative costs)
covers each input target name at most as often as it occurs among the
inputs. -/
theorem resolverCompleta_pipeline {costos : List ℚ} {objetivos : List (String × ℚ)}
    {out : List Asignacion} (h : resolverCompleta costos objetivos = .ok out) :
    ∃ asigs7 : List Asignacion,
      out = finalizar objetivos asigs7 ∧
      asigCostos asigs7 ≤ (costos : Multiset ℚ) ∧
      (∀ a ∈ asigs7, BuenaAsignacion a) ∧
      ((∀ c ∈ costos, 0 ≤ c) →
        cubiertos asigs7 ≤ ((objetivos.map Prod.fst : List String) : Multiset String)) := by
  simp only [resolverCompleta] at h
  rcases hcl : clasificarObjetivos (costos.max?.getD 0) (costos.min?.getD 0) objetivos with
    ⟨ext, muyPeq, norm⟩
  rw [hcl] at h
  dsimp only at h
  split at h
  · exact Except.noConfusion h
  · rename_i r1 pool1 asigs1 h0
    split at h
    · exact Except.noConfusion h
    · rename_i r2 norm2 pool2 asigs2 h1
      split at h
      · exact Except.noConfusion h
      · rename_i r3 pend3 pool3 asigs3 h2
        split at h
        · exact Except.noConfusion h
        · rename_i r4 pool4 asigs4 h3
          split at h
          · exact Except.noConfusion h
          · rename_i r5 pool5 asigs5 h4
            split at h
            · exact Except.noConfusion h
            · rename_i r6 pool6 asigs6 h5
              split at h
              · exact Except.noConfusion h
              · rename_i r7 asigs7 h6
                cases h
                obtain ⟨c0, n0, b0⟩ := fase0_spec h0
                obtain ⟨c1, n1, b1⟩ := fase1_spec _ h1
                obtain ⟨c2, n2, b2⟩ := fase2_spec h2
                obtain ⟨c3, n3, b3⟩ := fase3Grandes_spec h3
                obtain ⟨c4, n4, b4⟩ := fase3Medianos_spec h4
                obtain ⟨c5, n5, b5⟩ := fase3Pequenos_spec h5
                have hcons6 : asigCostos asigs6 + (pool6 : Multiset ℚ) =
                    (costos : Multiset ℚ) := by
                  rw [c5, c4, c3, c2, c1, c0, asigCostos_nil, zero_add]
                have hbuenas6 : ∀ a ∈ asigs6, BuenaAsignacion a :=
                  b5 (b4 (b3 (b2 (b1 (b0 (by simp))))))
                have hcob : (∀ c ∈ costos, 0 ≤ c) → cubiertos asigs6 ≤
                    ((objetivos.map Prod.fst : List String) : Multiset String) := by
                  intro hnn
                  set cmin : ℚ := costos.min?.getD 0 with hcmin
                  set prom : ℚ := (if pool3.length = 0 then
                        (if costos.length = 0 then (0 : ℚ) else costos.sum / costos.length)
                      else pool3.sum / pool3.length) with hprom
                  have hchain : cmin ≤ prom * 2 := by
                    rw [hcmin, hprom]
                    exact cadena_min_prom hnn
                      (by rw [c2, c1, c0, asigCostos_nil, zero_add])
                  have huno : ∀ x ∈ pend3,
                      ((fun p : String × ℚ => decide (p.2 > prom * 2)) x).toNat +
                      ((fun p : String × ℚ =>
                        decide (cmin ≤ p.2 ∧ p.2 ≤ prom * 2)) x).toNat +
                      ((fun p : String × ℚ => decide (p.2 < cmin)) x).toNat = 1 := by
                    intro x _
                    by_cases hg : x.2 > prom * 2
                    · have hno2 : ¬(cmin ≤ x.2 ∧ x.2 ≤ prom * 2) :=
                        fun hx => absurd hg (not_lt.mpr hx.2)
                      have hno3 : ¬(x.2 < cmin) :=
                        not_lt.mpr (le_trans hchain (le_of_lt hg))
                      simp [hg, hno2, hno3]
                    · by_cases hs : x.2 < cmin
                      · have hno2 : ¬(cmin ≤ x.2 ∧ x.2 ≤ prom * 2) :=
                          fun hx => absurd hs (not_lt.mpr hx.1)
                        simp [hg, hno2, hs]
                      · have h2a := not_lt.mp hs
                        have h2b := not_lt.mp hg
                        simp [hg, hs, h2a, h2b]
                  have hNpart := nombres_filtros_particion
                    (fun p : String × ℚ => decide (p.2 > prom * 2))
                    (fun p : String × ℚ => decide (cmin ≤ p.2 ∧ p.2 ≤ prom * 2))
                    (fun p : String × ℚ => decide (p.2 < cmin)) pend3 huno
                  have hNord3 : (((ordenarEstable (fun p => -p.2)
                        (pend3.filter (fun p : String × ℚ =>
                          decide (p.2 > prom * 2)))).map Prod.fst : List String) :
                        Multiset String) =
                      (((pend3.filter (fun p : String × ℚ =>
                        decide (p.2 > prom * 2))).map Prod.fst : List String) :
                        Multiset String) :=
                    nombres_perm_coe (ordenarEstable_perm _ _)
                  have hNord1 : (((ordenarEstable (fun p => p.2) muyPeq).map Prod.fst :
                        List String) : Multiset String) =
                      ((muyPeq.map Prod.fst : List String) : Multiset String) :=
                    nombres_perm_coe (ordenarEstable_perm _ _)
                  have hNobj : ((ext.map Prod.fst : List String) : Multiset String) +
                      (((muyPeq.map Prod.fst : List String) : Multiset String) +
                       ((norm.map Prod.fst : List String) : Multiset String)) =
                      ((objetivos.map Prod.fst : List String) : Multiset String) := by
                    have hperm := clasificar_perm (costos.max?.getD 0) (costos.min?.getD 0)
                      objetivos
                    rw [hcl] at hperm
                    dsimp only at hperm
                    have hcoe := nombres_perm_coe hperm
                    rw [nombres_append_coe, nombres_append_coe] at hcoe
                    exact hcoe
                  have n0z : cubiertos asigs1 ≤
                      ((ext.map Prod.fst : List String) : Multiset String) := by
                    have := n0
                    rw [cubiertos_nil, zero_add] at this
                    exact this
                  have paso6 : cubiertos asigs6 ≤ cubiertos asigs3 +
                      ((pend3.map Prod.fst : List String) : Multiset String) := by
                    rw [← hNpart]
                    refine le_trans n5 ?_
                    have h45 : cubiertos asigs5 ≤ (cubiertos asigs3 +
                        (((pend3.filter (fun p : String × ℚ =>
                          decide (p.2 > prom * 2))).map Prod.fst : List String) :
                          Multiset String)) +
                        (((pend3.filter (fun p : String × ℚ =>
                          decide (cmin ≤ p.2 ∧ p.2 ≤ prom * 2))).map Prod.fst :
                          List String) : Multiset String) := by
                      refine le_trans n4 (add_le_add_right ?_ _)
                      rw [← hNord3]
                      exact n3
                    refine le_trans (add_le_add_right h45 _) (le_of_eq ?_)
                    abel
                  have paso3 : cubiertos asigs3 +
                      ((pend3.map Prod.fst : List String) : Multiset String) ≤
                      ((objetivos.map Prod.fst : List String) : Multiset String) := by
                    rw [n2]
                    refine le_trans n1 ?_
                    rw [hNord1, ← hNobj]
                    refine le_trans (add_le_add_right (add_le_add_right n0z _) _)
                      (le_of_eq ?_)
                    abel
                  exact le_trans paso6 paso3
                by_cases hp6 : pool6 = []
                · rw [if_pos hp6] at h6
                  cases h6
                  refine ⟨asigs6, rfl, ?_, hbuenas6, hcob⟩
                  rw [hp6] at hcons6
                  simp only [Multiset.coe_nil, add_zero] at hcons6
                  exact le_of_eq hcons6
                · rw [if_neg hp6] at h6
                  obtain ⟨hl7, hc7, hn7, hb7, _⟩ := distribuirForzadamente_spec h6
                  refine ⟨asigs7, rfl, ?_, hb7 hbuenas6, ?_⟩
                  · exact le_trans hc7 (le_of_eq hcons6)
                  · intro hnn
                    rw [hn7]
                    exact hcob hnn

/-! ### First-match characterization of the exact search -/

theorem buscarEnCombos_eq_find (objetivo tol : ℚ) :
    ∀ l : List (List ℚ), buscarEnCombos objetivo tol l =
      (l.find? (fun c => decide (|c.sum - objetivo| ≤ tol))).map (fun c => (c, c.sum)) := by
  intro l
  induction l with
  | nil => rfl
  | cons c resto ih =>
    rw [buscarEnCombos]
    by_cases hc : |c.sum - objetivo| ≤ tol
    · rw [if_pos hc, List.find?_cons_of_pos _ (by simpa using hc)]
      rfl
    · rw [if_neg hc, List.find?_cons_of_neg _ (by simpa using hc), ih]

theorem buscarPorTamanos_eq_find (costos : List ℚ) (objetivo tol : ℚ) :
    ∀ ns : List ℕ, buscarPorTamanos costos objetivo tol ns =
      ((ns.flatMap (fun n => combinaciones n costos)).find?
        (fun c => decide (|c.sum - objetivo| ≤ tol))).map (fun c => (c, c.sum)) := by
  intro ns
  induction ns with
  | nil => rfl
  | cons n ns ih =>
    rw [buscarPorTamanos, List.flatMap_cons, List.find?_append, buscarEnCombos_eq_find]
    cases hfind : (combinaciones n costos).find?
        (fun c => decide (|c.sum - objetivo| ≤ tol)) with
    | some c => simp [hfind]
    | none => simp [hfind, ih]

/-! ### Concrete executions shared by claim witnesses and counterexamples -/

theorem corrida_cinco :
    resolverCompleta [5] [("A", 5)] =
      .ok [{ objetivo := "A", valorObjetivo := 5, costos := [5], suma := 5,
             diferencia := 0, precision := 100 }] := by
  norm_num [resolverCompleta, clasificarObjetivos, fase0, fase1, fase2, fase2Pass,
    buscarCoincidenciaExacta, buscarPorTamanos, buscarEnCombos, combinaciones,
    fase3Grandes, fase3Medianos, fase3Pequenos, removerCada, distribuirForzadamente,
    finalizar, nombresCubiertos, nombresDe, ordenarEstable, insercionEstable,
    List.cons_ne_nil, String.reduceEq, List.filter, abs_of_nonneg, abs_of_nonpos]

theorem corrida_milesima :
    resolverCompleta [0.0011] [("A", 0.0001)] =
      .ok [{ objetivo := "A", valorObjetivo := 0.0001, costos := [0.0011], suma := 0.0011,
             diferencia := 0.001, precision := -900 }] := by
  norm_num [resolverCompleta, clasificarObjetivos, fase0, fase1, encontrarMejorGrupo,
    grupoGo, fase2, fase2Pass, buscarCoincidenciaExacta, buscarPorTamanos, buscarEnCombos,
    combinaciones, fase3Grandes, fase3Medianos, fase3Pequenos, removerCada,
    distribuirForzadamente, finalizar, nombresCubiertos, nombresDe, ordenarEstable,
    insercionEstable, List.cons_ne_nil, String.reduceEq, List.filter, abs_of_nonneg,
    abs_of_nonpos]

theorem corrida_unos :
    resolverCompleta [1, 1, 1, 1, 1] [("A", 0.3), ("B", 0.2)] =
      .ok [{ objetivo := "B", valorObjetivo := 0.2, costos := [1, 1, 1, 1], suma := 4,
             diferencia := 3.8, precision := 0 },
           { objetivo := "A", valorObjetivo := 0.3, costos := [1], suma := 1,
             diferencia := 0.7, precision := 0 }] := by
  norm_num [resolverCompleta, clasificarObjetivos, fase0, fase1, encontrarMejorGrupo,
    grupoGo, fase2, fase2Pass, buscarCoincidenciaExacta, buscarPorTamanos, buscarEnCombos,
    combinaciones, fase3Grandes, fase3Medianos, pasoMediano, fase3Pequenos, pasoPequeno,
    minPorClave, removerCada, ltOpcional, distribuirForzadamente, distribuirGo,
    mejorIndicePara, finalizar, nombresCubiertos, nombresDe, ordenarEstable,
    insercionEstable, List.cons_ne_nil, String.reduceEq, List.filter, abs_of_nonneg,
    abs_of_nonpos]

theorem corrida_sin_objetivos : resolverCompleta [5] [] = .ok [] := by
  norm_num [resolverCompleta, clasificarObjetivos, fase0, fase1, fase2, fase2Pass,
    fase3Grandes, fase3Medianos, fase3Pequenos, distribuirForzadamente, distribuirGo,
    mejorIndicePara, finalizar, ordenarEstable, List.cons_ne_nil, List.filter,
    abs_of_nonneg, abs_of_nonpos]

theorem corrida_redistribuir :
    distribuirForzadamente
      [{ objetivo := "A", valorObjetivo := 1, costos := [], suma := 0,
         diferencia := 1, precision := 0 }] [2] =
      .ok [{ objetivo := "A", valorObjetivo := 1, costos := [2], suma := 2,
             diferencia := 1, precision := 0 }] := by
  norm_num [distribuirForzadamente, distribuirGo, mejorIndicePara, ordenarEstable,
    insercionEstable, List.enum, List.enumFrom, abs_of_nonneg, abs_of_nonpos]

/-! ### The claims -/

/-- C1 (coverage): on the documented input domain (nonnegative costs,
distinct target names) every original target name is accounted for exactly
once in the output of `resolver_completa`: once as a non-group assignment's
name or once inside exactly one group's `objetivos_agrupados`. -/
theorem c1_cobertura_exacta {costos : List ℚ} {objetivos : List (String × ℚ)}
    {out : List Asignacion} (h : resolverCompleta costos objetivos = .ok out)
    (hnn : ∀ c ∈ costos, 0 ≤ c) (hnd : (objetivos.map Prod.fst).Nodup) :
    ∀ nombre ∈ objetivos.map Prod.fst, cuentaNombre nombre out = 1 := by
  obtain ⟨asigs7, rfl, _, hb7, hcov⟩ := resolverCompleta_pipeline h
  intro nombre hnombre
  have hgr : ∀ a ∈ finalizar objetivos asigs7, a.esGrupo = true →
      a.objetivosAgrupados.getD [] ≠ [] :=
    finalizar_grupos (fun a ha hg => (hb7 a ha).2.2.2.1 hg)
  rw [cuentaNombre_eq_count nombre _ hgr]
  refine finalizar_count hnombre hnd ?_
  refine le_trans (Multiset.count_le_of_le nombre (hcov hnn)) ?_
  rw [Multiset.coe_count]
  exact List.nodup_iff_count_le_one.mp hnd nombre

/-- C2 (conservation): the multiset of costs assigned across the output of
`resolver_completa` is a sub-multiset of the input costs, and together with
the unused remainder it reconstitutes the input cost multiset exactly. -/
theorem c2_conservacion {costos : List ℚ} {objetivos : List (String × ℚ)}
    {out : List Asignacion} (h : resolverCompleta costos objetivos = .ok out) :
    asigCostos out ≤ (costos : Multiset ℚ) ∧
    asigCostos out + ((costos : Multiset ℚ) - asigCostos out) = (costos : Multiset ℚ) := by
  obtain ⟨asigs7, rfl, hle, _, _⟩ := resolverCompleta_pipeline h
  rw [finalizar_asigCostos]
  exact ⟨hle, add_tsub_cancel_of_le hle⟩

/-- C5 (consistency): every assignment returned by `resolver_completa` (on
nonnegative target values) has `suma` equal to the sum of its cost list and
`diferencia` equal to the absolute error against its target value. -/
theorem c5_consistencia {costos : List ℚ} {objetivos : List (String × ℚ)}
    {out : List Asignacion} (h : resolverCompleta costos objetivos = .ok out)
    (hv : ∀ p ∈ objetivos, 0 ≤ p.2) :
    ∀ a ∈ out, a.suma = a.costos.sum ∧ a.diferencia = |a.suma - a.valorObjetivo| := by
  obtain ⟨asigs7, rfl, _, hb7, _⟩ := resolverCompleta_pipeline h
  intro a ha
  have hb := finalizar_buenas hb7 hv a ha
  exact ⟨hb.1, hb.2.1⟩

/-- C4 as amended: the precision of every returned assignment with nonzero
target obeys one of the two formulas the code actually uses — the raw
(possibly negative) `100 - dif/valor*100` of phases 0-3, or its clamped
`max 0` variant — and every zero-cost assignment has precision exactly 0. -/
theorem c4_precision_enmendada {costos : List ℚ} {objetivos : List (String × ℚ)}
    {out : List Asignacion} (h : resolverCompleta costos objetivos = .ok out) :
    ∀ a ∈ out, (a.valorObjetivo ≠ 0 →
      (a.precision = 100 - a.diferencia / a.valorObjetivo * 100 ∨
       a.precision = max 0 (100 - a.diferencia / a.valorObjetivo * 100))) ∧
    (a.costos = [] → a.precision = 0) := by
  obtain ⟨asigs7, rfl, _, hb7, _⟩ := resolverCompleta_pipeline h
  intro a ha
  rw [finalizar] at ha
  rcases List.mem_append.mp ha with h1 | h1
  · have hb := hb7 a h1
    exact ⟨hb.2.2.1, fun hc => (hb.2.2.2.2 hc).1⟩
  · obtain ⟨p, hp, rfl⟩ := List.mem_map.mp h1
    refine ⟨?_, fun _ => rfl⟩
    intro hv0
    refine Or.inl ?_
    have hv0' : p.2 ≠ 0 := hv0
    show (0 : ℚ) = 100 - p.2 / p.2 * 100
    rw [div_self hv0']
    ring

/-- C9 as amended: when at least one assignment exists, forced
redistribution does assign every leftover cost: the ending assigned-cost
multiset is the starting one plus the whole leftover pool. -/
theorem c9_redistribucion_enmendada {asigs out : List Asignacion} {pool : List ℚ}
    (h : distribuirForzadamente asigs pool = .ok out) (hne : asigs ≠ []) :
    asigCostos out = asigCostos asigs + (pool : Multiset ℚ) :=
  (distribuirForzadamente_spec h).2.2.2.2 hne

/-- C7 (exact-match search): `_buscar_coincidencia_exacta` returns exactly
the first subset — sizes ascending, combinations in pool order — whose sum
is within tolerance, as a `find?` over the flattened enumeration (`none`
when exhausted); and on two equal costs with one target of that value at
`max_elementos = 1`, phase 2 assigns exactly one of them and keeps the
other in the pool. -/
theorem c7_busqueda_exacta :
    (∀ (costos : List ℚ) (objetivo tol : ℚ) (maxE : ℕ),
      buscarCoincidenciaExacta costos objetivo maxE tol =
        (((List.range' 1 (min maxE costos.length)).flatMap
            (fun n => combinaciones n costos)).find?
          (fun c => decide (|c.sum - objetivo| ≤ tol))).map (fun c => (c, c.sum))) ∧
    (∀ (n : String) (c : ℚ), c ≠ 0 → fase2Pass 1 [(n, c)] [c, c] [] =
      .ok ([], [c], [{ objetivo := n, valorObjetivo := c, costos := [c], suma := c,
                       diferencia := 0, precision := 100 }])) := by
  constructor
  · intro costos objetivo tol maxE
    exact buscarPorTamanos_eq_find costos objetivo tol _
  · intro n c hc
    simp only [fase2Pass, buscarCoincidenciaExacta, buscarPorTamanos, buscarEnCombos,
      combinaciones, removerCada, minPorClave]
    norm_num [hc, List.erase_cons_head]

/-- C3: on the degenerate input of an empty cost pool with one target, the
code raises (phase 0 divides by the zero `costo_promedio` at solver.py
line 85) instead of returning the terminal zero-cost assignment the
specification promises. -/
theorem c3_entrada_degenerada_lanza : resolverCompleta [] [("A", 5)] = .error () := by
  norm_num [resolverCompleta, clasificarObjetivos, fase0, abs_of_nonneg, abs_of_nonpos]

/-- C8 (scenario 4): with costs `[100, 100, 100]` and target `{A: 290}` the
target is classified normal (not extreme, since `290 ≤ 100 * 10`), the
large-target adaptive search finds all three costs greedily, and the
returned assignment carries sum 300 and difference 10. -/
theorem c8_escenario4 :
    clasificarObjetivos 100 100 [("A", 290)] = ([], [], [("A", 290)]) ∧
    buscarMejorCombinacionAdaptativa [100, 100, 100] 290 3 =
      .ok (some ([100, 100, 100], 300)) ∧
    resolverCompleta [100, 100, 100] [("A", 290)] =
      .ok [{ objetivo := "A", valorObjetivo := 290, costos := [100, 100, 100], suma := 300,
             diferencia := 10, precision := 2800/29 }] := by
  refine ⟨by norm_num [clasificarObjetivos], ?_, ?_⟩
  · norm_num [buscarMejorCombinacionAdaptativa, adaptativaVoraz, ordenarDesc,
      ordenarEstable, insercionEstable, abs_of_nonneg, abs_of_nonpos]
  · norm_num [resolverCompleta, clasificarObjetivos, fase0, fase1, fase2, fase2Pass,
      buscarCoincidenciaExacta, buscarPorTamanos, buscarEnCombos, combinaciones,
      fase3Grandes, buscarMejorCombinacionAdaptativa, adaptativaVoraz, ordenarDesc,
      ordenarEstable, insercionEstable, fase3Medianos, fase3Pequenos, removerCada,
      distribuirForzadamente, distribuirGo, mejorIndicePara, finalizar, nombresCubiertos,
      nombresDe, List.cons_ne_nil, String.reduceEq, List.filter, abs_of_nonneg, abs_of_nonpos]

/-- C10 (implicit medium-target gate): a medium target is skipped whenever
fewer than two costs remain, while a small target in the same position
takes the single nearest cost; end to end, with costs `[4, 10]` and targets
`{A: 10, B: 5}`, A consumes both costs and the medium target B ends as a
zero-cost terminal with precision 0 and difference 5. -/
theorem c10_mediano_pequeno :
    (∀ (pool : List ℚ) (asigs : List Asignacion) (t : String × ℚ), pool.length = 1 →
      pasoMediano pool asigs t = .ok (pool, asigs)) ∧
    (∀ (c : ℚ) (asigs : List Asignacion) (t : String × ℚ), t.2 ≠ 0 →
      pasoPequeno [c] asigs t = .ok ([],
        asigs ++ [{ objetivo := t.1, valorObjetivo := t.2, costos := [c], suma := c,
                    diferencia := abs (c - t.2),
                    precision := max 0 (100 - abs (c - t.2) / t.2 * 100) }])) ∧
    resolverCompleta [4, 10] [("A", 10), ("B", 5)] =
      .ok [{ objetivo := "A", valorObjetivo := 10, costos := [10, 4], suma := 14,
             diferencia := 4, precision := 60 },
           { objetivo := "B", valorObjetivo := 5, costos := [], suma := 0,
             diferencia := 5, precision := 0 }] := by
  refine ⟨?_, ?_, ?_⟩
  · intro pool asigs t hlen
    rw [pasoMediano, if_neg (by rw [hlen]; norm_num)]
  · intro c asigs t ht
    simp [pasoPequeno, minPorClave, ht]
  · norm_num [resolverCompleta, clasificarObjetivos, fase0, fase1, fase2, fase2Pass,
      buscarCoincidenciaExacta, buscarPorTamanos, buscarEnCombos, combinaciones,
      fase3Grandes, fase3Medianos, pasoMediano, fase3Pequenos, pasoPequeno, removerCada,
      minPorClave, buscarMejorCombinacionAgresiva, agresivaGo, ltOpcional,
      distribuirForzadamente, distribuirGo, mejorIndicePara, finalizar, nombresCubiertos,
      nombresDe, ordenarEstable, insercionEstable, List.cons_ne_nil, String.reduceEq, List.filter,
      abs_of_nonneg, abs_of_nonpos] <;> simp

/-- C4 counterexample: an assignment returned with a strictly positive
target value carries the unclamped precision `-900 < 0`, so the claimed
`max(0, ...)` clamp does not hold for every returned assignment. -/
theorem c4_precision_contraejemplo :
    resolverCompleta [0.0011] [("A", 0.0001)] =
      .ok [{ objetivo := "A", valorObjetivo := 0.0001, costos := [0.0011], suma := 0.0011,
             diferencia := 0.001, precision := -900 }] ∧
    (0 : ℚ) < 0.0001 ∧ (-900 : ℚ) < 0 :=
  ⟨corrida_milesima, by norm_num, by norm_num⟩

/-- C6 counterexample: on costs `[1,1,1,1,1]` with targets
`{A: 0.3, B: 0.2}` the solver returns two separate non-group assignments
(B then A, each matched in the small-target phase), not the single group
`"A + B"` the specification's scenario expects. -/
theorem c6_escenario2_contraejemplo :
    resolverCompleta [1, 1, 1, 1, 1] [("A", 0.3), ("B", 0.2)] =
      .ok [{ objetivo := "B", valorObjetivo := 0.2, costos := [1, 1, 1, 1], suma := 4,
             diferencia := 3.8, precision := 0 },
           { objetivo := "A", valorObjetivo := 0.3, costos := [1], suma := 1,
             diferencia := 0.7, precision := 0 }] ∧
    ∀ a ∈ ([{ objetivo := "B", valorObjetivo := 0.2, costos := [1, 1, 1, 1], suma := 4,
              diferencia := 3.8, precision := 0 },
            { objetivo := "A", valorObjetivo := 0.3, costos := [1], suma := 1,
              diferencia := 0.7, precision := 0 }] : List Asignacion),
      a.esGrupo = false := by
  refine ⟨corrida_unos, ?_⟩
  intro a ha
  simp at ha
  rcases ha with h | h <;> simp [h]

/-- C6 as amended: with group tolerance `suma_grupo * 0.15 = 0.075` no
subset of `[1,1,1,1,1]` comes close to the group sum 0.5, so the group
search returns `None` and both very-small targets fall through to the
small-target phase as individual clamped assignments. -/
theorem c6_escenario2_enmendado :
    encontrarMejorGrupo [("A", 0.3), ("B", 0.2)] [1, 1, 1, 1, 1] = .ok none ∧
    resolverCompleta [1, 1, 1, 1, 1] [("A", 0.3), ("B", 0.2)] =
      .ok [{ objetivo := "B", valorObjetivo := 0.2, costos := [1, 1, 1, 1], suma := 4,
             diferencia := 3.8, precision := 0 },
           { objetivo := "A", valorObjetivo := 0.3, costos := [1], suma := 1,
             diferencia := 0.7, precision := 0 }] := by
  constructor
  · norm_num [encontrarMejorGrupo, grupoGo, buscarCoincidenciaExacta, buscarPorTamanos,
      buscarEnCombos, combinaciones, abs_of_nonneg, abs_of_nonpos]
  · exact corrida_unos

/-- C9 counterexample: with one cost and no targets, phase 4 has no
assignment to put the leftover cost on; the solver returns an empty output
and the cost 5 stays unassigned, against the claim that every leftover
cost is always assigned. -/
theorem c9_redistribucion_contraejemplo :
    resolverCompleta [5] [] = .ok [] ∧
    asigCostos [] ≠ (([5] : List ℚ) : Multiset ℚ) := by
  constructor
  · exact corrida_sin_objetivos
  · intro hf
    have hcard := congrArg Multiset.card hf
    simp [asigCostos] at hcard

/-- C1 witness: the coverage theorem applied to the concrete run on costs
`[5]`, targets `{A: 5}`. -/
theorem c1_cobertura_exacta_witness :
    cuentaNombre "A" [{ objetivo := "A", valorObjetivo := 5, costos := [5], suma := 5,
                        diferencia := 0, precision := 100 }] = 1 :=
  c1_cobertura_exacta corrida_cinco (by norm_num) (by simp) "A" (by simp)

/-- C2 witness: conservation on the concrete run on costs `[5]`. -/
theorem c2_conservacion_witness :
    asigCostos [{ objetivo := "A", valorObjetivo := 5, costos := [5], suma := 5,
                  diferencia := 0, precision := 100 }] ≤ (([5] : List ℚ) : Multiset ℚ) ∧
    asigCostos [{ objetivo := "A", valorObjetivo := 5, costos := [5], suma := 5,
                  diferencia := 0, precision := 100 }] +
      ((([5] : List ℚ) : Multiset ℚ) -
        asigCostos [{ objetivo := "A", valorObjetivo := 5, costos := [5], suma := 5,
                      diferencia := 0, precision := 100 }]) =
      (([5] : List ℚ) : Multiset ℚ) :=
  c2_conservacion corrida_cinco

/-- C5 witness: field consistency of the single assignment of the run on
costs `[5]`. -/
theorem c5_consistencia_witness :
    (5 : ℚ) = ([5] : List ℚ).sum ∧ (0 : ℚ) = |(5 : ℚ) - 5| :=
  c5_consistencia corrida_cinco (by norm_num) _ (List.mem_singleton_self _)

/-- C4 witness: the amended precision property instantiated on the
unclamped-precision run. -/
theorem c4_precision_enmendada_witness :
    ((0.0001 : ℚ) ≠ 0 →
      ((-900 : ℚ) = 100 - 0.001 / 0.0001 * 100 ∨
       (-900 : ℚ) = max 0 (100 - 0.001 / 0.0001 * 100))) ∧
    (([0.0011] : List ℚ) = [] → (-900 : ℚ) = 0) :=
  c4_precision_enmendada corrida_milesima _ (List.mem_singleton_self _)

/-- C9 witness: the amended redistribution property on one starting
assignment and one leftover cost. -/
theorem c9_redistribucion_enmendada_witness :
    asigCostos [{ objetivo := "A", valorObjetivo := 1, costos := [2], suma := 2,
                  diferencia := 1, precision := 0 }] =
      asigCostos [{ objetivo := "A", valorObjetivo := 1, costos := [], suma := 0,
                    diferencia := 1, precision := 0 }] + (([2] : List ℚ) : Multiset ℚ) :=
  c9_redistribucion_enmendada corrida_redistribuir (by simp)

/-- C7 witness: the phase-2 scenario at cost value 3. -/
theorem c7_busqueda_exacta_witness :
    fase2Pass 1 [("A", (3 : ℚ))] [3, 3] [] =
      .ok ([], [3], [{ objetivo := "A", valorObjetivo := 3, costos := [3], suma := 3,
                       diferencia := 0, precision := 100 }]) :=
  c7_busqueda_exacta.2 "A" 3 (by norm_num)

/-- C10 witness: the medium-target gate and the small-target single-cost
take at pool `[3]`, target value 2. -/
theorem c10_mediano_pequeno_witness :
    pasoMediano [3] [] ("X", 2) = .ok ([3], []) ∧
    pasoPequeno [3] [] ("X", 2) = .ok ([],
      [{ objetivo := "X", valorObjetivo := 2, costos := [3], suma := 3,
         diferencia := abs ((3 : ℚ) - 2),
         precision := max 0 (100 - abs ((3 : ℚ) - 2) / 2 * 100) }]) :=
  ⟨c10_mediano_pequeno.1 [3] [] ("X", 2) rfl,
   c10_mediano_pequeno.2.1 3 [] ("X", 2) (by norm_num)⟩
